import Mathlib

/-!
A verification development for the site-percolation engine in
`src/SitePercolation.cc`.

Embedding conventions:
* C++ `double` is embedded as `ℚ` (exact arithmetic).  The sweep loop
  `for (double p = 0.0; p <= 1.0 + 1e-10; p += step)` accumulates `p` by
  repeated addition; over `ℚ` the accumulated value after `i` additions is
  exactly `i * step`, so the loop is embedded as iteration over the indices
  `i` with `(i : ℚ) * step ≤ 1 + tol`, where `tol = 1/10^10` embeds the
  literal `1e-10`.  Inside definitions, products, quotients and the floor
  on `ℚ` are written with the primitives `Rat.divInt`, `mkRat` and
  `Rat.floor` (bridging lemmas below identify them with `*`, `/` and `⌊⌋`),
  and `⌊√n⌋` is computed by `isqrt` (identified with `Nat.sqrt` below), so
  that every definition evaluates on concrete inputs.
* C++ `int` results (`Smax`, component counts) are embedded as `ℤ` or `ℕ`.
* The `cerr` report on an ordering violation is embedded as a boolean
  `err` flag in the step result; `cout` progress prints are dropped.
* The CSV files opened under the `visualization` flag are an external sink;
  the only effect the dump has on the engine is the path compression caused
  by the `uf.find(i)` calls it issues, which is embedded faithfully.
-/

namespace SitePerc

/-- `⌊√n⌋`: the number of `k ≤ n` with `k * k ≤ n`, minus one.  Identified
with `Nat.sqrt` by `isqrt_eq_sqrt` below. -/
def isqrt (n : ℕ) : ℕ := ((Finset.range (n + 1)).filter (fun k => k * k ≤ n)).card - 1

/-- Exact rational quotient `a / b`, written with `Rat.divInt` so that it
evaluates; identified with `/` by `qdiv_eq_div` below. -/
def qdiv (a b : ℚ) : ℚ := Rat.divInt (a.num * (b.den : ℤ)) ((a.den : ℤ) * b.num)

/-! ### Union-Find

Modelled from the spec: the `UnionFind` class used by `SitePercolation.cc`
(members `unite`, `find`, `get_size`, `Ncc`) is declared in
`SitePercolation.h` and implemented outside `src/`.  Following spec §4.1:
`find` returns the root and rewrites every visited node's parent to point
directly at the root (full path compression); `unite` attaches the root of
smaller size under the root of larger size and the surviving root's size
becomes the sum; `get_size` returns the size of the component containing
`x`; `Ncc n` ("count_components") returns the number of distinct roots
among the first `n` managed elements. -/

/-- Parent lookup: out-of-range indices behave as self-parented. -/
def pget (parent : List ℕ) (x : ℕ) : ℕ := parent.getD x x

/-- Fuel-bounded walk to the root of `x`. -/
def rootF (parent : List ℕ) : ℕ → ℕ → ℕ
  | 0, x => x
  | fuel+1, x => if pget parent x = x then x else rootF parent fuel (pget parent x)

/-- Root of `x`, with fuel equal to the number of managed elements
(sufficient for every well-formed structure). -/
def rootN (parent : List ℕ) (x : ℕ) : ℕ := rootF parent parent.length x

/-- Path compression: walk from `x` to the root, rewriting every visited
node's parent to `r` (the precomputed root). -/
def compressF (r : ℕ) : ℕ → List ℕ → ℕ → List ℕ
  | 0, parent, _ => parent
  | fuel+1, parent, x =>
      if pget parent x = x then parent
      else compressF r fuel (parent.set x r) (pget parent x)

structure UF where
  parent : List ℕ
  sz : List ℕ
  deriving DecidableEq

/-- Fresh structure over `n` elements: everyone self-parented, size 1. -/
def UF.init (n : ℕ) : UF := ⟨List.range n, List.replicate n 1⟩

def UF.root (u : UF) (x : ℕ) : ℕ := rootN u.parent x

/-- `find` with full path compression: returns the root and the compressed
structure. -/
def UF.find (u : UF) (x : ℕ) : ℕ × UF :=
  let r := u.root x
  (r, ⟨compressF r u.parent.length u.parent x, u.sz⟩)

/-- Size of the component containing `x` (a query; sizes are stored at
roots, stale entries at non-roots are never read). -/
def UF.get_size (u : UF) (x : ℕ) : ℕ := u.sz.getD (u.root x) 0

/-- Number of connected components among the first `n` elements: the number
of distinct roots. -/
def UF.Ncc (u : UF) (n : ℕ) : ℕ := ((Finset.range n).image u.root).card

/-- Union by size: find both roots (compressing both paths); if distinct,
attach the smaller root under the larger (ties attach the second root under
the first) and give the survivor the summed size. -/
def UF.unite (u : UF) (a b : ℕ) : UF :=
  let fa := u.find a
  let u1 := fa.2
  let fb := u1.find b
  let u2 := fb.2
  let ra := fa.1
  let rb := fb.1
  if ra = rb then u2
  else if u2.sz.getD ra 0 < u2.sz.getD rb 0 then
    ⟨u2.parent.set ra rb, u2.sz.set rb (u2.sz.getD ra 0 + u2.sz.getD rb 0)⟩
  else
    ⟨u2.parent.set rb ra, u2.sz.set ra (u2.sz.getD ra 0 + u2.sz.getD rb 0)⟩

/-! ### The percolation engine (`SitePercolation.cc`) -/

/-- An edge is an ordered pair of node indices (`typedef pair<int,int> Edge`). -/
def Edge := ℕ × ℕ
deriving DecidableEq

structure Engine where
  uf : UF
  uf_aux : UF
  numNodos : ℕ
  current_p : ℚ
  nodoActivo : List Bool
  superTop : ℕ
  superBottom : ℕ
  p_c : ℚ
  deriving DecidableEq

/-- The constructor `SitePercolation(int numNodos)`: primary structure of
size `numNodos`, auxiliary (boundary) structure of size `numNodos + 2`,
`current_p = 0`, all nodes inactive, supernodes at `numNodos` and
`numNodos + 1`.  (`p_c` is a plain member left to a default; embedded as 0.) -/
def SitePercolation (numNodos : ℕ) : Engine :=
  { uf := UF.init numNodos
    uf_aux := UF.init (numNodos + 2)
    numNodos := numNodos
    current_p := 0
    nodoActivo := List.replicate numNodos false
    superTop := numNodos
    superBottom := numNodos + 1
    p_c := 0 }

/-- `initialize_supernodes`: `grid_size = ⌊√numNodos⌋`; for each
`i < grid_size`, unite the top supernode with node `i` and the bottom
supernode with node `numNodos - grid_size + i`, in the auxiliary structure. -/
def initialize_supernodes (s : Engine) : Engine :=
  let grid_size := isqrt s.numNodos
  { s with
    uf_aux := (List.range grid_size).foldl
      (fun ua i =>
        (ua.unite s.superTop i).unite s.superBottom (s.numNodos - grid_size + i))
      s.uf_aux }

/-- The activation loop of `generate_single_percolation`: for each
`i < numNodos`, if node `i` is not active and `configuracion[i] <= p`,
mark it active. -/
def activar (numNodos : ℕ) (active : List Bool) (config : List ℚ) (p : ℚ) :
    List Bool :=
  (List.range numNodos).foldl
    (fun act i =>
      if act.getD i false = false ∧ config.getD i 0 ≤ p then act.set i true
      else act)
    active

/-- The edge loop body of `generate_single_percolation`: for an edge with
both endpoints active, unite it in the primary structure, fold the
post-union endpoint component sizes into the running maximum `Smax`, and
unite it in the auxiliary structure. -/
def procEdge (active : List Bool) (st : UF × UF × ℤ) (e : ℕ × ℕ) :
    UF × UF × ℤ :=
  if active.getD e.1 false = true ∧ active.getD e.2 false = true then
    let uf' := st.1.unite e.1 e.2
    let newSmax : ℤ := max (uf'.get_size e.1) (uf'.get_size e.2)
    (uf', st.2.1.unite e.1 e.2, max st.2.2 newSmax)
  else st

structure StepResult where
  state : Engine
  Smax : ℤ
  ncc : ℕ
  err : Bool
  deriving DecidableEq

/-- `generate_single_percolation(aristas, configuracion, p, Smax)`:
if `p < current_p`, report the violation (`cerr`, embedded as `err = true`)
and return the current component count with no state change; otherwise
activate every inactive node of weight `≤ p`, process every edge with both
endpoints active, commit `current_p = p`, and return the component count. -/
def generate_single_percolation (s : Engine) (aristas : List (ℕ × ℕ))
    (configuracion : List ℚ) (p : ℚ) (Smax : ℤ) : StepResult :=
  if p < s.current_p then
    ⟨s, Smax, s.uf.Ncc s.numNodos, true⟩
  else
    let act := activar s.numNodos s.nodoActivo configuracion p
    let t := aristas.foldl (procEdge act) (s.uf, s.uf_aux, Smax)
    ⟨{ s with uf := t.1, uf_aux := t.2.1, nodoActivo := act, current_p := p },
      t.2.2, t.1.Ncc s.numNodos, false⟩

/-- `has_percolation()`: `uf_aux.find(superTop) == uf_aux.find(superBottom)`.
Both `find` calls compress paths in the auxiliary structure; the returned
engine carries the compressed structure. -/
def has_percolation (s : Engine) : Bool × Engine :=
  let ft := s.uf_aux.find s.superTop
  let fb := ft.2.find s.superBottom
  (decide (ft.1 = fb.1), { s with uf_aux := fb.2 })

/-- The visualization dump writes `uf.find(i)` for each node `i`: its only
effect on the engine is the path compression those calls perform. -/
def dumpRoots (numNodos : ℕ) (u : UF) : UF :=
  (List.range numNodos).foldl (fun v i => (v.find i).2) u

/-- The literal `1e-10` of the loop bound (`= 1/10^10`). -/
def tol : ℚ := mkRat 1 (10 ^ 10)

/-- The loop bound `1.0 + 1e-10` (`= 1 + tol`, by `pLimit_eq` below). -/
def pLimit : ℚ := mkRat (10 ^ 10 + 1) (10 ^ 10)

/-- The threshold of the `i`-th sweep iteration: the exact accumulated sum
of `i` copies of `step`, namely `(i : ℚ) * step` (by `pOf_eq` below). -/
def pOf (step : ℚ) (i : ℕ) : ℚ := Rat.divInt ((i : ℤ) * step.num) (step.den : ℤ)

/-- Number of iterations of `for (double p = 0.0; p <= 1.0 + 1e-10; p += step)`:
the indices `i` with `(i : ℚ) * step ≤ 1 + tol`.  For `step ≤ 0` the C++
loop never terminates; the embedding gives such a run no iterations and
every claim about the sweep assumes `0 < step`. -/
def sweepCount (step : ℚ) : ℕ :=
  if 0 < step then ((qdiv pLimit step).floor).toNat + 1 else 0

structure LoopSt where
  s : Engine
  Smax : ℤ
  percolation : Bool
  res : List (ℚ × ℕ × ℤ × ℚ)
  deriving DecidableEq

/-- One iteration of the sweep loop at threshold `p`: incremental step,
append the record `(p, Ncc, Smax, Smax / numNodos)`, dump per-node roots
when visualization is on (compressing the primary structure), then—only
while percolation has not yet been seen—query `has_percolation()` and on
success record `p_c = p`. -/
def loopBody (aristas : List (ℕ × ℕ)) (configuracion : List ℚ) (vis : Bool)
    (st : LoopSt) (p : ℚ) : LoopSt :=
  let r := generate_single_percolation st.s aristas configuracion p st.Smax
  let nmax : ℚ := Rat.divInt r.Smax (r.state.numNodos : ℤ)
  let res' := st.res ++ [(p, r.ncc, r.Smax, nmax)]
  let s2 := if vis then { r.state with uf := dumpRoots r.state.numNodos r.state.uf }
            else r.state
  if st.percolation then ⟨s2, r.Smax, true, res'⟩
  else
    let hp := has_percolation s2
    if hp.1 then ⟨{ hp.2 with p_c := p }, r.Smax, true, res'⟩
    else ⟨hp.2, r.Smax, false, res'⟩

/-- State of the sweep after the first `i` iterations (after the one-time
supernode initialization, with `Smax` seeded to 1). -/
def sweepIters (s : Engine) (aristas : List (ℕ × ℕ)) (configuracion : List ℚ)
    (step : ℚ) (vis : Bool) (i : ℕ) : LoopSt :=
  (List.range i).foldl
    (fun st j => loopBody aristas configuracion vis st (pOf step j))
    ⟨initialize_supernodes s, 1, false, []⟩

/-- `generate_full_percolation(aristas, configuracion, step, visualization)`:
initialize the supernodes once, then run the sweep loop, returning the final
engine and the record list. -/
def generate_full_percolation (s : Engine) (aristas : List (ℕ × ℕ))
    (configuracion : List ℚ) (step : ℚ) (vis : Bool) :
    Engine × List (ℚ × ℕ × ℤ × ℚ) :=
  let fin := sweepIters s aristas configuracion step vis (sweepCount step)
  (fin.s, fin.res)

/-! ### Invariants and auxiliary predicates used by the theorems -/

/-- Fuel `f` suffices for the walk from `x`: the walk's result is a genuine
root (its own parent). -/
def Rooted (parent : List ℕ) (x : ℕ) (f : ℕ) : Prop :=
  pget parent (rootF parent f x) = rootF parent f x

/-- Every in-range parent pointer stays in range. -/
def Bounded (parent : List ℕ) : Prop :=
  ∀ i < parent.length, pget parent i < parent.length

/-- The parent graph is acyclic: some measure strictly decreases along every
non-trivial parent edge. -/
def DecrExists (parent : List ℕ) : Prop :=
  ∃ ρ : ℕ → ℕ, ∀ x, pget parent x ≠ x → ρ (pget parent x) < ρ x

/-- Well-formed union-find state: bounded acyclic parent vector, and a size
vector of matching length. -/
def UF.Inv (u : UF) : Prop :=
  Bounded u.parent ∧ DecrExists u.parent ∧ u.sz.length = u.parent.length

/-- `parent'` is `parent` with some nodes of root `r` repointed directly at
`r` (the shape produced by path compression). -/
def CompressedTo (parent parent' : List ℕ) (r : ℕ) : Prop :=
  parent'.length = parent.length ∧ pget parent r = r ∧
  ∀ i, pget parent' i = pget parent i ∨ (pget parent' i = r ∧ rootN parent i = r)

/-- The surviving root of `unite a b` (the larger side; ties keep `a`'s root). -/
def UF.uniteW (u : UF) (a b : ℕ) : ℕ :=
  if u.sz.getD (u.root a) 0 < u.sz.getD (u.root b) 0 then u.root b else u.root a

/-- The absorbed root of `unite a b`. -/
def UF.uniteL (u : UF) (a b : ℕ) : ℕ :=
  if u.sz.getD (u.root a) 0 < u.sz.getD (u.root b) 0 then u.root a else u.root b

/-- The engine invariant: both union-find structures are well-formed and all
fields have the sizes fixed by the constructor. -/
def EngineInv (s : Engine) : Prop :=
  UF.Inv s.uf ∧ UF.Inv s.uf_aux ∧
  s.uf.parent.length = s.numNodos ∧
  s.uf_aux.parent.length = s.numNodos + 2 ∧
  s.nodoActivo.length = s.numNodos ∧
  s.superTop = s.numNodos ∧ s.superBottom = s.numNodos + 1

/-- All edge endpoints name real nodes. -/
@[reducible] def EdgesOk (aristas : List (ℕ × ℕ)) (n : ℕ) : Prop :=
  ∀ e ∈ aristas, e.1 < n ∧ e.2 < n

/-- The value `has_percolation()` would return, as a pure predicate on the
engine state (root equality of the two supernodes). -/
def hasPercB (s : Engine) : Bool :=
  decide (s.uf_aux.root s.superTop = s.uf_aux.root s.superBottom)

/-- Observational equivalence of union-find states: same element count,
same size vector, same representative for every element (the parent-pointer
layout may differ by path compression). -/
def UFsim (u v : UF) : Prop :=
  u.parent.length = v.parent.length ∧ u.sz = v.sz ∧ ∀ y, u.root y = v.root y

/-- Observational equivalence of engines: equal except that the primary
structure is only `UFsim`-equivalent. -/
def EngSim (a b : Engine) : Prop :=
  UFsim a.uf b.uf ∧ a.uf_aux = b.uf_aux ∧ a.numNodos = b.numNodos ∧
  a.current_p = b.current_p ∧ a.nodoActivo = b.nodoActivo ∧
  a.superTop = b.superTop ∧ a.superBottom = b.superBottom ∧ a.p_c = b.p_c

/-- Observational equivalence of sweep-loop states. -/
def LoopSim (x y : LoopSt) : Prop :=
  EngSim x.s y.s ∧ x.Smax = y.Smax ∧ x.percolation = y.percolation ∧
  x.res = y.res

/-! ### Bridging the computational primitives to the standard operations -/

theorem isqrt_eq_sqrt (n : ℕ) : isqrt n = Nat.sqrt n := by
  have h : (Finset.range (n + 1)).filter (fun k => k * k ≤ n)
      = Finset.range (Nat.sqrt n + 1) := by
    ext k
    simp only [Finset.mem_filter, Finset.mem_range]
    constructor
    · rintro ⟨-, h2⟩
      exact Nat.lt_succ_of_le (Nat.le_sqrt.2 h2)
    · intro hk
      have hk' : k ≤ Nat.sqrt n := Nat.lt_succ_iff.1 hk
      exact ⟨Nat.lt_succ_of_le (le_trans hk' (Nat.sqrt_le_self n)),
        Nat.le_sqrt.1 hk'⟩
  rw [isqrt, h, Finset.card_range]
  omega

theorem pLimit_eq : pLimit = 1 + tol := by
  rw [pLimit, tol, Rat.mkRat_eq_div, Rat.mkRat_eq_div]
  norm_num

theorem pOf_eq (step : ℚ) (i : ℕ) : pOf step i = (i : ℚ) * step := by
  rw [pOf, Rat.divInt_eq_div]
  push_cast
  rw [mul_div_assoc, Rat.num_div_den]

theorem qdiv_eq_div (a b : ℚ) : qdiv a b = a / b := by
  rcases eq_or_ne b 0 with hb | hb
  · subst hb
    simp [qdiv]
  · have hbn : (b.num : ℚ) ≠ 0 := Int.cast_ne_zero.2 (Rat.num_ne_zero.2 hb)
    have had : ((a.den : ℕ) : ℚ) ≠ 0 := Nat.cast_ne_zero.2 a.den_nz
    have hbd : ((b.den : ℕ) : ℚ) ≠ 0 := Nat.cast_ne_zero.2 b.den_nz
    rw [qdiv, Rat.divInt_eq_div]
    push_cast
    conv_rhs => rw [← Rat.num_div_den a, ← Rat.num_div_den b]
    field_simp

/-- Characterization of the sweep grid: iteration `i` exists exactly when
the accumulated threshold `i * step` is within the loop bound. -/
theorem lt_sweepCount_iff (step : ℚ) (h : 0 < step) (i : ℕ) :
    i < sweepCount step ↔ (i : ℚ) * step ≤ 1 + tol := by
  have hpl : (0 : ℚ) ≤ pLimit := by
    rw [pLimit_eq, tol, Rat.mkRat_eq_div]
    positivity
  have hfl : (0 : ℤ) ≤ (qdiv pLimit step).floor := by
    rw [Rat.le_floor, qdiv_eq_div]
    push_cast
    exact div_nonneg hpl h.le
  rw [sweepCount, if_pos h, Nat.lt_succ_iff, ← Int.ofNat_le,
    Int.toNat_of_nonneg hfl, Rat.le_floor, qdiv_eq_div, pLimit_eq]
  push_cast
  rw [le_div_iff₀ h]

/-! ### Basic facts about the fuel-bounded root walk -/

theorem pget_of_len_le {parent : List ℕ} {x : ℕ} (h : parent.length ≤ x) :
    pget parent x = x := by
  rw [pget, List.getD_eq_getElem?_getD, List.getElem?_eq_none h, Option.getD_none]

theorem pget_set {parent : List ℕ} {j v i : ℕ} :
    pget (parent.set j v) i
      = if j = i ∧ j < parent.length then v else pget parent i := by
  by_cases hji : j = i
  · subst hji
    by_cases hlen : j < parent.length
    · simp [pget, List.getD_eq_getElem?_getD, List.getElem?_set, hlen]
    · have h1 : parent.set j v = parent := List.set_eq_of_length_le (by omega)
      simp [h1, hlen]
  · simp [pget, List.getD_eq_getElem?_getD, List.getElem?_set, hji]

theorem rootF_fix {parent : List ℕ} {x : ℕ} (h : pget parent x = x) :
    ∀ f, rootF parent f x = x
  | 0 => rfl
  | f + 1 => by simp [rootF, h]

theorem rootF_succ_of_ne {parent : List ℕ} {x : ℕ} (h : ¬ pget parent x = x)
    (f : ℕ) : rootF parent (f + 1) x = rootF parent f (pget parent x) := by
  simp [rootF, h]

theorem rootF_stable {parent : List ℕ} :
    ∀ {f x g : ℕ}, Rooted parent x f → f ≤ g →
      rootF parent g x = rootF parent f x := by
  intro f
  induction f with
  | zero =>
    intro x g hr _
    exact rootF_fix hr g
  | succ f ih =>
    intro x g hr hle
    by_cases hx : pget parent x = x
    · rw [rootF_fix hx g, rootF_fix hx (f + 1)]
    · obtain ⟨g', rfl⟩ : ∃ g', g = g' + 1 := ⟨g - 1, by omega⟩
      rw [rootF_succ_of_ne hx, rootF_succ_of_ne hx]
      have hr' : Rooted parent (pget parent x) f := by
        rw [Rooted, ← rootF_succ_of_ne hx]
        rw [Rooted, rootF_succ_of_ne hx] at hr
        rw [rootF_succ_of_ne hx]
        exact hr
      exact ih hr' (by omega)

theorem rooted_mono {parent : List ℕ} {x f g : ℕ} (hr : Rooted parent x f)
    (h : f ≤ g) : Rooted parent x g := by
  rw [Rooted, rootF_stable hr h]
  exact hr

theorem rooted_agree {parent : List ℕ} {x f g : ℕ} (hf : Rooted parent x f)
    (hg : Rooted parent x g) : rootF parent f x = rootF parent g x := by
  rcases le_total f g with h | h
  · rw [rootF_stable hf h]
  · rw [rootF_stable hg h]

theorem rootF_lt {parent : List ℕ} (hb : Bounded parent) :
    ∀ (f : ℕ) {x}, x < parent.length → rootF parent f x < parent.length
  | 0, x, hx => hx
  | f + 1, x, hx => by
    by_cases h : pget parent x = x
    · simpa [rootF, h] using hx
    · rw [rootF_succ_of_ne h]
      exact rootF_lt hb f (hb x hx)

theorem rootN_lt {parent : List ℕ} (hb : Bounded parent) {x : ℕ}
    (hx : x < parent.length) : rootN parent x < parent.length :=
  rootF_lt hb _ hx

theorem exists_fix_iterate {parent : List ℕ} (hb : Bounded parent)
    (hd : DecrExists parent) (x : ℕ) :
    ∃ i ≤ parent.length - 1,
      pget parent ((fun y => pget parent y)^[i] x)
        = (fun y => pget parent y)^[i] x := by
  obtain ⟨ρ, hρ⟩ := hd
  by_contra hc
  push_neg at hc
  have hx : x < parent.length := by
    by_contra hxn
    refine hc 0 (by omega) ?_
    simp only [Function.iterate_zero_apply]
    exact pget_of_len_le (by omega)
  have hiter : ∀ i ≤ parent.length, (fun y => pget parent y)^[i] x < parent.length := by
    intro i
    induction i with
    | zero => intro _; simpa using hx
    | succ i ih =>
      intro hi
      rw [Function.iterate_succ_apply']
      exact hb _ (ih (by omega))
  have hdec : ∀ j ≤ parent.length, ∀ i < j,
      ρ ((fun y => pget parent y)^[j] x) < ρ ((fun y => pget parent y)^[i] x) := by
    intro j
    induction j with
    | zero => omega
    | succ j ih =>
      intro hj i hij
      have hstep : ρ ((fun y => pget parent y)^[j+1] x)
          < ρ ((fun y => pget parent y)^[j] x) := by
        rw [Function.iterate_succ_apply']
        exact hρ _ (hc j (by omega))
      rcases Nat.lt_succ_iff_lt_or_eq.1 hij with h | h
      · exact lt_trans hstep (ih (by omega) i h)
      · subst h; exact hstep
  have hinj : Set.InjOn (fun i => (fun y => pget parent y)^[i] x)
      ↑(Finset.range (parent.length + 1)) := by
    intro i hi j hj hij
    simp only [Finset.coe_range, Set.mem_Iio] at hi hj
    have hij' : (fun y => pget parent y)^[i] x = (fun y => pget parent y)^[j] x := hij
    by_contra hne
    rcases Nat.lt_or_ge i j with h | h
    · have := hdec j (by omega) i h
      rw [hij'] at this
      omega
    · have hji : j < i := by omega
      have := hdec i (by omega) j hji
      rw [hij'] at this
      omega
  have hcard := Finset.card_le_card_of_injOn (fun i => (fun y => pget parent y)^[i] x)
      (fun i hi => Finset.mem_range.2
        (hiter i (Nat.lt_succ_iff.1 (Finset.mem_range.1 hi)))) hinj
  simp only [Finset.card_range] at hcard
  omega

theorem rooted_of_iterate {parent : List ℕ} :
    ∀ {f x : ℕ},
      (∃ i ≤ f, pget parent ((fun y => pget parent y)^[i] x)
        = (fun y => pget parent y)^[i] x) →
      Rooted parent x f := by
  intro f
  induction f with
  | zero =>
    rintro x ⟨i, hi, hfix⟩
    obtain rfl : i = 0 := by omega
    rw [Rooted]
    simpa using hfix
  | succ f ih =>
    rintro x ⟨i, hi, hfix⟩
    by_cases hx : pget parent x = x
    · rw [Rooted, rootF_fix hx]
      exact hx
    · rcases i with _ | i
      · exact absurd (by simpa using hfix) hx
      · have h2 : Rooted parent (pget parent x) f := by
          refine ih ⟨i, by omega, ?_⟩
          rwa [Function.iterate_succ_apply] at hfix
        rw [Rooted, rootF_succ_of_ne hx]
        rw [Rooted] at h2
        exact h2

theorem rooted_of_inv {parent : List ℕ} (hb : Bounded parent)
    (hd : DecrExists parent) (x : ℕ) : Rooted parent x (parent.length - 1) :=
  rooted_of_iterate (exists_fix_iterate hb hd x)

theorem rootedN_of_inv {parent : List ℕ} (hb : Bounded parent)
    (hd : DecrExists parent) (x : ℕ) : Rooted parent x parent.length :=
  rooted_mono (rooted_of_inv hb hd x) (by omega)

theorem rootN_pget {parent : List ℕ} (HR : ∀ y, Rooted parent y parent.length)
    (x : ℕ) : rootN parent (pget parent x) = rootN parent x := by
  by_cases hx : pget parent x = x
  · rw [hx]
  · have hlen : parent.length ≠ 0 := by
      intro h0
      exact hx (pget_of_len_le (by omega))
    obtain ⟨n, hn⟩ : ∃ n, parent.length = n + 1 := ⟨parent.length - 1, by omega⟩
    have h1 : rootN parent x = rootF parent n (pget parent x) := by
      rw [rootN, hn, rootF_succ_of_ne hx]
    have h2 : Rooted parent (pget parent x) n := by
      rw [Rooted, ← h1]
      exact HR x
    calc rootN parent (pget parent x)
        = rootF parent n (pget parent x) := rootF_stable h2 (by omega)
      _ = rootN parent x := h1.symm

/-! ### Path compression preserves the partition -/

theorem compressed_refl {parent : List ℕ} {r : ℕ} (h : pget parent r = r) :
    CompressedTo parent parent r :=
  ⟨rfl, h, fun _ => Or.inl rfl⟩

theorem compressed_rootF {parent parent' : List ℕ} {r : ℕ}
    (HC : CompressedTo parent parent' r)
    (HR : ∀ y, Rooted parent y parent.length) :
    ∀ (f y : ℕ), Rooted parent y f → rootF parent' f y = rootF parent f y := by
  obtain ⟨hlen, hrfix, hpt⟩ := HC
  have hr'fix : pget parent' r = r := by
    rcases hpt r with h | h
    · rw [h, hrfix]
    · exact h.1
  intro f
  induction f with
  | zero => intro y _; rfl
  | succ f ih =>
    intro y hr
    rcases hpt y with hy | hy
    · by_cases hyy : pget parent y = y
      · have h1 : pget parent' y = y := by rw [hy, hyy]
        rw [rootF_fix h1, rootF_fix hyy]
      · have h1 : ¬ pget parent' y = y := by rw [hy]; exact hyy
        rw [rootF_succ_of_ne h1, rootF_succ_of_ne hyy, hy]
        have hrf : Rooted parent (pget parent y) f := by
          rw [Rooted, ← rootF_succ_of_ne hyy]
          exact hr
        exact ih (pget parent y) hrf
    · obtain ⟨hy1, hy2⟩ := hy
      have hRHS : rootF parent (f + 1) y = r := by
        rw [rooted_agree hr (HR y)]
        exact hy2
      by_cases hry : r = y
      · subst hry
        rw [hRHS, rootF_fix hr'fix]
      · have h1 : ¬ pget parent' y = y := by
          rw [hy1]
          exact fun hh => hry hh
        rw [rootF_succ_of_ne h1, hy1, rootF_fix hr'fix, hRHS]

theorem compressed_rootN {parent parent' : List ℕ} {r : ℕ}
    (HC : CompressedTo parent parent' r)
    (HR : ∀ y, Rooted parent y parent.length) (y : ℕ) :
    rootN parent' y = rootN parent y := by
  rw [rootN, HC.1]
  exact compressed_rootF HC HR parent.length y (HR y)

theorem compressed_bounded {parent parent' : List ℕ} {r : ℕ}
    (hb : Bounded parent) (HC : CompressedTo parent parent' r) :
    Bounded parent' := by
  obtain ⟨hlen, hrfix, hpt⟩ := HC
  intro i hi
  rw [hlen] at hi ⊢
  rcases hpt i with h | h
  · rw [h]
    exact hb i hi
  · rw [h.1, ← h.2]
    exact rootN_lt hb hi

theorem compressed_decr {parent parent' : List ℕ} {r : ℕ}
    (hd : DecrExists parent) (HC : CompressedTo parent parent' r) :
    DecrExists parent' := by
  obtain ⟨ρ, hρ⟩ := hd
  obtain ⟨hlen, hrfix, hpt⟩ := HC
  have hr'fix : pget parent' r = r := by
    rcases hpt r with h | h
    · rw [h, hrfix]
    · exact h.1
  refine ⟨fun x => if pget parent' x = x then 0 else ρ x + 1, ?_⟩
  intro x hx
  simp only []
  rw [if_neg hx]
  by_cases hy : pget parent' (pget parent' x) = pget parent' x
  · rw [if_pos hy]
    omega
  · rw [if_neg hy]
    have hlt : ρ (pget parent' x) < ρ x := by
      rcases hpt x with h | h
      · rw [h] at hx ⊢
        exact hρ x hx
      · exfalso
        rw [h.1] at hy
        exact hy hr'fix
    omega

theorem compressF_length {r : ℕ} :
    ∀ (f : ℕ) (parent : List ℕ) (x : ℕ),
      (compressF r f parent x).length = parent.length
  | 0, _, _ => rfl
  | f + 1, parent, x => by
    by_cases hfix : pget parent x = x
    · simp [compressF, hfix]
    · rw [show compressF r (f + 1) parent x
          = compressF r f (parent.set x r) (pget parent x) by
            simp [compressF, hfix]]
      rw [compressF_length f (parent.set x r) (pget parent x), List.length_set]

theorem compressF_compressed {parent₀ : List ℕ} {r : ℕ}
    (HR : ∀ y, Rooted parent₀ y parent₀.length) :
    ∀ (f : ℕ) (parent : List ℕ) (x : ℕ),
      CompressedTo parent₀ parent r → rootN parent₀ x = r →
      CompressedTo parent₀ (compressF r f parent x) r := by
  intro f
  induction f with
  | zero =>
    intro parent x HC _
    exact HC
  | succ f ih =>
    intro parent x HC hx
    by_cases hfix : pget parent x = x
    · simpa [compressF, hfix] using HC
    · rw [show compressF r (f + 1) parent x
          = compressF r f (parent.set x r) (pget parent x) by
            simp [compressF, hfix]]
      refine ih (parent.set x r) (pget parent x) ?_ ?_
      · obtain ⟨hlen, hrfix, hpt⟩ := HC
        refine ⟨by rw [List.length_set, hlen], hrfix, ?_⟩
        intro i
        rw [pget_set]
        by_cases hcond : x = i ∧ x < parent.length
        · rw [if_pos hcond]
          right
          exact ⟨rfl, hcond.1 ▸ hx⟩
        · rw [if_neg hcond]
          exact hpt i
      · rcases HC.2.2 x with h | h
        · rw [h, rootN_pget HR, hx]
        · rw [h.1]
          exact rootF_fix HC.2.1 _

/-! ### `find`: returns the root, compresses, preserves partition and sizes -/

theorem find_fst (u : UF) (x : ℕ) : (u.find x).1 = u.root x := rfl

theorem find_sz (u : UF) (x : ℕ) : (u.find x).2.sz = u.sz := rfl

theorem find_compressed (u : UF) (hb : Bounded u.parent)
    (hd : DecrExists u.parent) (x : ℕ) :
    CompressedTo u.parent (u.find x).2.parent (u.root x) := by
  have HR := fun y => rootedN_of_inv hb hd y
  have hfix : pget u.parent (u.root x) = u.root x := HR x
  exact compressF_compressed HR u.parent.length u.parent x
    (compressed_refl hfix) rfl

theorem find_parent_length (u : UF) (x : ℕ) :
    (u.find x).2.parent.length = u.parent.length :=
  compressF_length _ _ _

theorem find_root (u : UF) (hb : Bounded u.parent) (hd : DecrExists u.parent)
    (x y : ℕ) : (u.find x).2.root y = u.root y :=
  compressed_rootN (find_compressed u hb hd x)
    (fun z => rootedN_of_inv hb hd z) y

theorem find_inv {u : UF} (h : UF.Inv u) (x : ℕ) : UF.Inv (u.find x).2 := by
  obtain ⟨hb, hd, hsz⟩ := h
  exact ⟨compressed_bounded hb (find_compressed u hb hd x),
    compressed_decr hd (find_compressed u hb hd x),
    by rw [find_sz, find_parent_length, hsz]⟩

/-! ### Linking one root under another -/

theorem link_rootF {parent : List ℕ} {ra rb : ℕ} (hra : pget parent ra = ra)
    (hrb : pget parent rb = rb) (hne : ra ≠ rb) (hlt : ra < parent.length) :
    ∀ (f x g : ℕ), Rooted parent x f → f < g →
      rootF (parent.set ra rb) g x
        = if rootF parent f x = ra then rb else rootF parent f x := by
  have hget_ra : pget (parent.set ra rb) ra = rb := by
    rw [pget_set, if_pos ⟨rfl, hlt⟩]
  have hget_ne : ∀ i, i ≠ ra → pget (parent.set ra rb) i = pget parent i := by
    intro i hi
    rw [pget_set, if_neg (fun h => hi h.1.symm)]
  have hrb' : pget (parent.set ra rb) rb = rb := by
    rw [hget_ne rb (fun h => hne h.symm), hrb]
  have main : ∀ (f x g : ℕ), pget parent x = x → f < g →
      rootF (parent.set ra rb) g x
        = if rootF parent f x = ra then rb else rootF parent f x := by
    intro f x g hx hg
    rw [rootF_fix hx]
    by_cases hxa : x = ra
    · subst hxa
      rw [if_pos rfl]
      obtain ⟨g', rfl⟩ : ∃ g', g = g' + 1 := ⟨g - 1, by omega⟩
      have h1 : ¬ pget (parent.set x rb) x = x := by
        rw [hget_ra]
        exact fun h => hne h.symm
      rw [rootF_succ_of_ne h1, hget_ra, rootF_fix hrb']
    · rw [if_neg hxa]
      exact rootF_fix (by rw [hget_ne x hxa, hx]) g
  intro f
  induction f with
  | zero =>
    intro x g hr hg
    exact main 0 x g hr hg
  | succ f ih =>
    intro x g hr hg
    by_cases hx : pget parent x = x
    · exact main (f + 1) x g hx hg
    · have hxa : x ≠ ra := fun h => hx (h ▸ hra)
      obtain ⟨g', rfl⟩ : ∃ g', g = g' + 1 := ⟨g - 1, by omega⟩
      have h1 : ¬ pget (parent.set ra rb) x = x := by
        rw [hget_ne x hxa]
        exact hx
      rw [rootF_succ_of_ne h1, hget_ne x hxa, rootF_succ_of_ne hx]
      have hrf : Rooted parent (pget parent x) f := by
        rw [Rooted, ← rootF_succ_of_ne hx]
        exact hr
      exact ih (pget parent x) g' hrf (by omega)

theorem link_rootN {parent : List ℕ} {ra rb : ℕ} (hb : Bounded parent)
    (hd : DecrExists parent) (hra : pget parent ra = ra)
    (hrb : pget parent rb = rb) (hne : ra ≠ rb) (hlt : ra < parent.length)
    (y : ℕ) :
    rootN (parent.set ra rb) y
      = if rootN parent y = ra then rb else rootN parent y := by
  have h1 : Rooted parent y (parent.length - 1) := rooted_of_inv hb hd y
  rw [rootN, List.length_set]
  rw [link_rootF hra hrb hne hlt (parent.length - 1) y parent.length h1 (by omega)]
  rw [rooted_agree h1 (rootedN_of_inv hb hd y)]
  rfl

theorem link_bounded {parent : List ℕ} {ra rb : ℕ} (hb : Bounded parent)
    (hrb_lt : rb < parent.length) : Bounded (parent.set ra rb) := by
  intro i hi
  rw [List.length_set] at hi ⊢
  rw [pget_set]
  by_cases h : ra = i ∧ ra < parent.length
  · rw [if_pos h]
    exact hrb_lt
  · rw [if_neg h]
    exact hb i hi

theorem link_decr {parent : List ℕ} {ra rb : ℕ} (hb : Bounded parent)
    (hd : DecrExists parent) (hra : pget parent ra = ra)
    (hrb : pget parent rb = rb) (hne : ra ≠ rb) (hlt : ra < parent.length) :
    DecrExists (parent.set ra rb) := by
  have hd' := hd
  obtain ⟨ρ, hρ⟩ := hd'
  refine ⟨fun x => if rootN parent x = ra then ρ x + ρ rb + 1 else ρ x, ?_⟩
  intro x hx
  simp only []
  have hget_ra : pget (parent.set ra rb) ra = rb := by
    rw [pget_set, if_pos ⟨rfl, hlt⟩]
  have hget_ne : ∀ i, i ≠ ra → pget (parent.set ra rb) i = pget parent i := by
    intro i hi
    rw [pget_set, if_neg (fun h => hi h.1.symm)]
  by_cases hxa : x = ra
  · subst hxa
    rw [hget_ra]
    have h1 : rootN parent rb = rb := rootF_fix hrb _
    have h2 : rootN parent x = x := rootF_fix hra _
    rw [if_neg (by rw [h1]; exact fun h => hne h.symm), if_pos h2]
    omega
  · rw [hget_ne x hxa] at hx ⊢
    have hstep : ρ (pget parent x) < ρ x := hρ x hx
    have hroots : rootN parent (pget parent x) = rootN parent x :=
      rootN_pget (fun y => rootedN_of_inv hb hd y) x
    by_cases hr : rootN parent x = ra
    · rw [if_pos (by rw [hroots]; exact hr), if_pos hr]
      omega
    · rw [if_neg (by rw [hroots]; exact hr), if_neg hr]
      exact hstep

/-! ### `unite`: merge by size, preserving the invariant -/

theorem unite_cases (u : UF) (hInv : UF.Inv u) {a b : ℕ}
    (ha : a < u.parent.length) (hb : b < u.parent.length) :
    (u.unite a b).parent.length = u.parent.length ∧
    UF.Inv (u.unite a b) ∧
    (∀ y, (u.unite a b).root y
      = if u.root a = u.root b then u.root y
        else if u.root y = u.uniteL a b then u.uniteW a b else u.root y) ∧
    ((u.unite a b).sz
      = if u.root a = u.root b then u.sz
        else u.sz.set (u.uniteW a b)
            (u.sz.getD (u.root a) 0 + u.sz.getD (u.root b) 0)) := by
  obtain ⟨hB, hD, hS⟩ := hInv
  have hInv1 : UF.Inv (u.find a).2 := find_inv ⟨hB, hD, hS⟩ a
  have hroot1 : ∀ y, (u.find a).2.root y = u.root y :=
    fun y => find_root u hB hD a y
  have hlen1 : (u.find a).2.parent.length = u.parent.length :=
    find_parent_length u a
  obtain ⟨hB1, hD1, hS1⟩ := hInv1
  have hInv2 : UF.Inv ((u.find a).2.find b).2 := find_inv ⟨hB1, hD1, hS1⟩ b
  have hroot2 : ∀ y, ((u.find a).2.find b).2.root y = u.root y :=
    fun y => (find_root (u.find a).2 hB1 hD1 b y).trans (hroot1 y)
  have hlen2 : ((u.find a).2.find b).2.parent.length = u.parent.length :=
    (find_parent_length (u.find a).2 b).trans hlen1
  obtain ⟨hB2, hD2, hS2⟩ := hInv2
  have hfb : ((u.find a).2.find b).1 = u.root b :=
    ((rfl : ((u.find a).2.find b).1 = (u.find a).2.root b).trans (hroot1 b))
  have hunite : u.unite a b
      = if u.root a = u.root b then ((u.find a).2.find b).2
        else if ((u.find a).2.find b).2.sz.getD (u.root a) 0
            < ((u.find a).2.find b).2.sz.getD (u.root b) 0 then
          ⟨((u.find a).2.find b).2.parent.set (u.root a) (u.root b),
            ((u.find a).2.find b).2.sz.set (u.root b)
              (((u.find a).2.find b).2.sz.getD (u.root a) 0
                + ((u.find a).2.find b).2.sz.getD (u.root b) 0)⟩
        else
          ⟨((u.find a).2.find b).2.parent.set (u.root b) (u.root a),
            ((u.find a).2.find b).2.sz.set (u.root a)
              (((u.find a).2.find b).2.sz.getD (u.root a) 0
                + ((u.find a).2.find b).2.sz.getD (u.root b) 0)⟩ := by
    simp only [UF.unite]
    rw [hfb]
    rfl
  have hsz2 : ((u.find a).2.find b).2.sz = u.sz := rfl
  have hroota_fix : pget ((u.find a).2.find b).2.parent (u.root a) = u.root a := by
    have h := rootedN_of_inv hB2 hD2 a
    rw [Rooted] at h
    rwa [show rootF ((u.find a).2.find b).2.parent
        ((u.find a).2.find b).2.parent.length a = u.root a from hroot2 a] at h
  have hrootb_fix : pget ((u.find a).2.find b).2.parent (u.root b) = u.root b := by
    have h := rootedN_of_inv hB2 hD2 b
    rw [Rooted] at h
    rwa [show rootF ((u.find a).2.find b).2.parent
        ((u.find a).2.find b).2.parent.length b = u.root b from hroot2 b] at h
  have hralt : u.root a < ((u.find a).2.find b).2.parent.length := by
    rw [hlen2]
    exact rootN_lt hB ha
  have hrblt : u.root b < ((u.find a).2.find b).2.parent.length := by
    rw [hlen2]
    exact rootN_lt hB hb
  by_cases heq : u.root a = u.root b
  · rw [hunite, if_pos heq]
    refine ⟨hlen2, ⟨hB2, hD2, hS2⟩, fun y => by rw [if_pos heq]; exact hroot2 y,
      by rw [if_pos heq]; exact hsz2⟩
  · have hW : u.uniteW a b
        = if u.sz.getD (u.root a) 0 < u.sz.getD (u.root b) 0
          then u.root b else u.root a := rfl
    have hL : u.uniteL a b
        = if u.sz.getD (u.root a) 0 < u.sz.getD (u.root b) 0
          then u.root a else u.root b := rfl
    rw [hunite, if_neg heq]
    by_cases hcmp : u.sz.getD (u.root a) 0 < u.sz.getD (u.root b) 0
    · rw [hsz2, if_pos hcmp]
      have hlenr : (((u.find a).2.find b).2.parent.set (u.root a) (u.root b)).length
          = u.parent.length := by
        rw [List.length_set, hlen2]
      refine ⟨hlenr, ⟨?_, ?_, ?_⟩, ?_, ?_⟩
      · exact link_bounded hB2 hrblt
      · exact link_decr hB2 hD2 hroota_fix hrootb_fix heq hralt
      · simp only [List.length_set]
        rw [hS]
        exact hlen2.symm
      · intro y
        rw [if_neg heq, hW, hL, if_pos hcmp, if_pos hcmp]
        show rootN (((u.find a).2.find b).2.parent.set (u.root a) (u.root b)) y
          = if u.root y = u.root a then u.root b else u.root y
        rw [link_rootN hB2 hD2 hroota_fix hrootb_fix heq hralt y]
        rw [show rootN ((u.find a).2.find b).2.parent y = u.root y from hroot2 y]
      · rw [if_neg heq, hW, if_pos hcmp]
    · rw [hsz2, if_neg hcmp]
      have hneq' : u.root b ≠ u.root a := fun h => heq h.symm
      have hlenr : (((u.find a).2.find b).2.parent.set (u.root b) (u.root a)).length
          = u.parent.length := by
        rw [List.length_set, hlen2]
      refine ⟨hlenr, ⟨?_, ?_, ?_⟩, ?_, ?_⟩
      · exact link_bounded hB2 hralt
      · exact link_decr hB2 hD2 hrootb_fix hroota_fix hneq' hrblt
      · simp only [List.length_set]
        rw [hS]
        exact hlen2.symm
      · intro y
        rw [if_neg heq, hW, hL, if_neg hcmp, if_neg hcmp]
        show rootN (((u.find a).2.find b).2.parent.set (u.root b) (u.root a)) y
          = if u.root y = u.root b then u.root a else u.root y
        rw [link_rootN hB2 hD2 hrootb_fix hroota_fix hneq' hrblt y]
        rw [show rootN ((u.find a).2.find b).2.parent y = u.root y from hroot2 y]
      · rw [if_neg heq, hW, if_neg hcmp]

theorem getD_set_self {α : Type} {l : List α} {i : ℕ} {v d : α}
    (h : i < l.length) : (l.set i v).getD i d = v := by
  simp [List.getD_eq_getElem?_getD, List.getElem?_set, h]

theorem getD_set_ne {α : Type} {l : List α} {i j : ℕ} {v d : α}
    (h : i ≠ j) : (l.set i v).getD j d = l.getD j d := by
  simp [List.getD_eq_getElem?_getD, List.getElem?_set, h]

theorem unite_inv {u : UF} (hInv : UF.Inv u) {a b : ℕ}
    (ha : a < u.parent.length) (hb : b < u.parent.length) :
    UF.Inv (u.unite a b) := (unite_cases u hInv ha hb).2.1

theorem unite_length {u : UF} (hInv : UF.Inv u) {a b : ℕ}
    (ha : a < u.parent.length) (hb : b < u.parent.length) :
    (u.unite a b).parent.length = u.parent.length := (unite_cases u hInv ha hb).1

theorem unite_root_eq {u : UF} (hInv : UF.Inv u) {a b : ℕ}
    (ha : a < u.parent.length) (hb : b < u.parent.length) (y : ℕ) :
    (u.unite a b).root y
      = if u.root a = u.root b then u.root y
        else if u.root y = u.uniteL a b then u.uniteW a b else u.root y :=
  (unite_cases u hInv ha hb).2.2.1 y

theorem unite_sz_eq {u : UF} (hInv : UF.Inv u) {a b : ℕ}
    (ha : a < u.parent.length) (hb : b < u.parent.length) :
    (u.unite a b).sz
      = if u.root a = u.root b then u.sz
        else u.sz.set (u.uniteW a b)
            (u.sz.getD (u.root a) 0 + u.sz.getD (u.root b) 0) :=
  (unite_cases u hInv ha hb).2.2.2

theorem uniteWL_cases (u : UF) (a b : ℕ) :
    (u.uniteW a b = u.root a ∧ u.uniteL a b = u.root b)
      ∨ (u.uniteW a b = u.root b ∧ u.uniteL a b = u.root a) := by
  rw [UF.uniteW, UF.uniteL]
  by_cases hc : u.sz.getD (u.root a) 0 < u.sz.getD (u.root b) 0
  · right
    rw [if_pos hc, if_pos hc]
    exact ⟨rfl, rfl⟩
  · left
    rw [if_neg hc, if_neg hc]
    exact ⟨rfl, rfl⟩

theorem unite_connects {u : UF} (hInv : UF.Inv u) {a b : ℕ}
    (ha : a < u.parent.length) (hb : b < u.parent.length) :
    (u.unite a b).root a = (u.unite a b).root b := by
  rw [unite_root_eq hInv ha hb, unite_root_eq hInv ha hb]
  by_cases heq : u.root a = u.root b
  · rw [if_pos heq, if_pos heq, heq]
  · rw [if_neg heq, if_neg heq]
    rcases uniteWL_cases u a b with ⟨hw, hl⟩ | ⟨hw, hl⟩
    · rw [hl, if_neg (fun h => heq h), if_pos rfl, hw]
    · rw [hl, if_pos rfl, if_neg (fun h => heq h.symm), hw]

theorem unite_preserves_conn {u : UF} (hInv : UF.Inv u) {a b : ℕ}
    (ha : a < u.parent.length) (hb : b < u.parent.length) {x y : ℕ}
    (h : u.root x = u.root y) :
    (u.unite a b).root x = (u.unite a b).root y := by
  rw [unite_root_eq hInv ha hb, unite_root_eq hInv ha hb, h]

theorem Ncc_le_of_comp {u v : UF} {h : ℕ → ℕ}
    (hcomp : ∀ y, v.root y = h (u.root y)) (m : ℕ) : v.Ncc m ≤ u.Ncc m := by
  rw [UF.Ncc, UF.Ncc]
  have himg : (Finset.range m).image v.root
      = ((Finset.range m).image u.root).image h := by
    rw [Finset.image_image]
    exact Finset.image_congr (fun x _ => hcomp x)
  rw [himg]
  exact Finset.card_image_le

theorem unite_Ncc_le {u : UF} (hInv : UF.Inv u) {a b : ℕ}
    (ha : a < u.parent.length) (hb : b < u.parent.length) (m : ℕ) :
    (u.unite a b).Ncc m ≤ u.Ncc m := by
  refine Ncc_le_of_comp (h := fun z =>
    if u.root a = u.root b then z
    else if z = u.uniteL a b then u.uniteW a b else z) (fun y => ?_) m
  rw [unite_root_eq hInv ha hb y]

theorem unite_get_size {u : UF} (hInv : UF.Inv u) {a b : ℕ}
    (ha : a < u.parent.length) (hb : b < u.parent.length) (y : ℕ) :
    (u.unite a b).get_size y
      = if u.root a = u.root b then u.get_size y
        else if u.root y = u.root a ∨ u.root y = u.root b
          then u.sz.getD (u.root a) 0 + u.sz.getD (u.root b) 0
          else u.get_size y := by
  rw [UF.get_size, unite_root_eq hInv ha hb, unite_sz_eq hInv ha hb]
  by_cases heq : u.root a = u.root b
  · rw [if_pos heq, if_pos heq, if_pos heq]
    rfl
  · rw [if_neg heq, if_neg heq, if_neg heq]
    have hWlt : u.uniteW a b < u.sz.length := by
      rw [hInv.2.2]
      rcases uniteWL_cases u a b with ⟨hw, -⟩ | ⟨hw, -⟩
      · rw [hw]
        exact rootN_lt hInv.1 ha
      · rw [hw]
        exact rootN_lt hInv.1 hb
    by_cases hyl : u.root y = u.uniteL a b
    · rw [if_pos hyl]
      have hcond : u.root y = u.root a ∨ u.root y = u.root b := by
        rcases uniteWL_cases u a b with ⟨-, hl⟩ | ⟨-, hl⟩
        · right; rw [hyl, hl]
        · left; rw [hyl, hl]
      rw [if_pos hcond, getD_set_self hWlt]
    · rw [if_neg hyl]
      by_cases hyw : u.root y = u.uniteW a b
      · have hcond : u.root y = u.root a ∨ u.root y = u.root b := by
          rcases uniteWL_cases u a b with ⟨hw, -⟩ | ⟨hw, -⟩
          · left; rw [hyw, hw]
          · right; rw [hyw, hw]
        rw [if_pos hcond, hyw, getD_set_self hWlt]
      · have hcond : ¬ (u.root y = u.root a ∨ u.root y = u.root b) := by
          rcases uniteWL_cases u a b with ⟨hw, hl⟩ | ⟨hw, hl⟩
          · rintro (h | h)
            · exact hyw (by rw [h, hw])
            · exact hyl (by rw [h, hl])
          · rintro (h | h)
            · exact hyl (by rw [h, hl])
            · exact hyw (by rw [h, hw])
        rw [if_neg hcond, UF.get_size,
          getD_set_ne (fun h => hyw (by rw [h]))]

theorem unite_noop_of_connected {u : UF} (hInv : UF.Inv u) {a b : ℕ}
    (ha : a < u.parent.length) (hb : b < u.parent.length)
    (heq : u.root a = u.root b) :
    (∀ y, (u.unite a b).root y = u.root y) ∧ (u.unite a b).sz = u.sz := by
  constructor
  · intro y
    rw [unite_root_eq hInv ha hb, if_pos heq]
  · rw [unite_sz_eq hInv ha hb, if_pos heq]

/-! ### The edge loop of the incremental step -/

theorem procEdge_eq (act : List Bool) (st : UF × UF × ℤ) (e : ℕ × ℕ) :
    procEdge act st e
      = if act.getD e.1 false = true ∧ act.getD e.2 false = true then
          (st.1.unite e.1 e.2, st.2.1.unite e.1 e.2,
            max st.2.2 (max ((st.1.unite e.1 e.2).get_size e.1 : ℤ)
              ((st.1.unite e.1 e.2).get_size e.2 : ℤ)))
        else st := rfl

/-- Umbrella facts about one `procEdge` step. -/
theorem procEdge_facts (act : List Bool) (st : UF × UF × ℤ) (e : ℕ × ℕ)
    (hInv1 : UF.Inv st.1) (hInv2 : UF.Inv st.2.1)
    (he1 : e.1 < st.1.parent.length) (he2 : e.2 < st.1.parent.length)
    (hn : st.1.parent.length ≤ st.2.1.parent.length) :
    UF.Inv (procEdge act st e).1 ∧ UF.Inv (procEdge act st e).2.1 ∧
    (procEdge act st e).1.parent.length = st.1.parent.length ∧
    (procEdge act st e).2.1.parent.length = st.2.1.parent.length ∧
    (∀ x y, st.1.root x = st.1.root y
      → (procEdge act st e).1.root x = (procEdge act st e).1.root y) ∧
    (∀ x y, st.2.1.root x = st.2.1.root y
      → (procEdge act st e).2.1.root x = (procEdge act st e).2.1.root y) ∧
    (∀ m, (procEdge act st e).1.Ncc m ≤ st.1.Ncc m) ∧
    st.2.2 ≤ (procEdge act st e).2.2 ∧
    (∀ y, ((st.1.get_size y : ℤ) ≤ st.2.2
      → ((procEdge act st e).1.get_size y : ℤ) ≤ (procEdge act st e).2.2)) := by
  rw [procEdge_eq]
  by_cases hact : act.getD e.1 false = true ∧ act.getD e.2 false = true
  · rw [if_pos hact]
    have he1' : e.1 < st.2.1.parent.length := lt_of_lt_of_le he1 hn
    have he2' : e.2 < st.2.1.parent.length := lt_of_lt_of_le he2 hn
    refine ⟨unite_inv hInv1 he1 he2, unite_inv hInv2 he1' he2',
      unite_length hInv1 he1 he2, unite_length hInv2 he1' he2',
      fun x y h => unite_preserves_conn hInv1 he1 he2 h,
      fun x y h => unite_preserves_conn hInv2 he1' he2' h,
      unite_Ncc_le hInv1 he1 he2,
      le_max_left _ _, ?_⟩
    intro y hy
    rw [unite_get_size hInv1 he1 he2 y]
    by_cases heq : st.1.root e.1 = st.1.root e.2
    · rw [if_pos heq]
      exact le_trans hy (le_max_left _ _)
    · rw [if_neg heq]
      by_cases hcond : st.1.root y = st.1.root e.1 ∨ st.1.root y = st.1.root e.2
      · rw [if_pos hcond]
        have h1 : (st.1.unite e.1 e.2).get_size e.1
            = st.1.sz.getD (st.1.root e.1) 0 + st.1.sz.getD (st.1.root e.2) 0 := by
          rw [unite_get_size hInv1 he1 he2 e.1, if_neg heq, if_pos (Or.inl rfl)]
        have h2 : ((st.1.unite e.1 e.2).get_size e.1 : ℤ)
            ≤ max st.2.2 (max ((st.1.unite e.1 e.2).get_size e.1 : ℤ)
              ((st.1.unite e.1 e.2).get_size e.2 : ℤ)) :=
          le_trans (le_max_left _ _) (le_max_right _ _)
        rw [← h1]
        exact h2
      · rw [if_neg hcond]
        exact le_trans hy (le_max_left _ _)
  · rw [if_neg hact]
    exact ⟨hInv1, hInv2, rfl, rfl, fun x y h => h, fun x y h => h,
      fun m => le_refl _, le_refl _, fun y hy => hy⟩

/-- Umbrella facts about the whole edge loop. -/
theorem foldEdges_facts (act : List Bool) :
    ∀ (aristas : List (ℕ × ℕ)) (st : UF × UF × ℤ),
      UF.Inv st.1 → UF.Inv st.2.1 →
      (∀ e ∈ aristas, e.1 < st.1.parent.length ∧ e.2 < st.1.parent.length) →
      st.1.parent.length ≤ st.2.1.parent.length →
      UF.Inv (aristas.foldl (procEdge act) st).1 ∧
      UF.Inv (aristas.foldl (procEdge act) st).2.1 ∧
      (aristas.foldl (procEdge act) st).1.parent.length = st.1.parent.length ∧
      (aristas.foldl (procEdge act) st).2.1.parent.length = st.2.1.parent.length ∧
      (∀ x y, st.1.root x = st.1.root y
        → (aristas.foldl (procEdge act) st).1.root x
          = (aristas.foldl (procEdge act) st).1.root y) ∧
      (∀ x y, st.2.1.root x = st.2.1.root y
        → (aristas.foldl (procEdge act) st).2.1.root x
          = (aristas.foldl (procEdge act) st).2.1.root y) ∧
      (∀ m, (aristas.foldl (procEdge act) st).1.Ncc m ≤ st.1.Ncc m) ∧
      st.2.2 ≤ (aristas.foldl (procEdge act) st).2.2 ∧
      (∀ y, (st.1.get_size y : ℤ) ≤ st.2.2
        → ((aristas.foldl (procEdge act) st).1.get_size y : ℤ)
          ≤ (aristas.foldl (procEdge act) st).2.2) := by
  intro aristas
  induction aristas with
  | nil =>
    intro st h1 h2 _ _
    exact ⟨h1, h2, rfl, rfl, fun x y h => h, fun x y h => h,
      fun m => le_refl _, le_refl _, fun y hy => hy⟩
  | cons f rest ih =>
    intro st hInv1 hInv2 hE hn
    have hf := hE f (List.mem_cons_self f rest)
    obtain ⟨pInv1, pInv2, plen1, plen2, pconn1, pconn2, pNcc, pSmax, pSize⟩ :=
      procEdge_facts act st f hInv1 hInv2 hf.1 hf.2 hn
    have hE' : ∀ e ∈ rest, e.1 < (procEdge act st f).1.parent.length
        ∧ e.2 < (procEdge act st f).1.parent.length := by
      intro e he
      rw [plen1]
      exact hE e (List.mem_cons_of_mem f he)
    have hn' : (procEdge act st f).1.parent.length
        ≤ (procEdge act st f).2.1.parent.length := by
      rw [plen1, plen2]
      exact hn
    obtain ⟨qInv1, qInv2, qlen1, qlen2, qconn1, qconn2, qNcc, qSmax, qSize⟩ :=
      ih (procEdge act st f) pInv1 pInv2 hE' hn'
    rw [List.foldl_cons]
    exact ⟨qInv1, qInv2, qlen1.trans plen1, qlen2.trans plen2,
      fun x y h => qconn1 x y (pconn1 x y h),
      fun x y h => qconn2 x y (pconn2 x y h),
      fun m => le_trans (qNcc m) (pNcc m),
      le_trans pSmax qSmax,
      fun y hy => qSize y (pSize y hy)⟩

/-- After the edge loop, every edge with both endpoints active is united in
both structures and the endpoint component sizes are accounted in `Smax`. -/
theorem foldEdges_saturated (act : List Bool) :
    ∀ (aristas : List (ℕ × ℕ)) (st : UF × UF × ℤ),
      UF.Inv st.1 → UF.Inv st.2.1 →
      (∀ e ∈ aristas, e.1 < st.1.parent.length ∧ e.2 < st.1.parent.length) →
      st.1.parent.length ≤ st.2.1.parent.length →
      ∀ e ∈ aristas, act.getD e.1 false = true → act.getD e.2 false = true →
        (aristas.foldl (procEdge act) st).1.root e.1
          = (aristas.foldl (procEdge act) st).1.root e.2 ∧
        (aristas.foldl (procEdge act) st).2.1.root e.1
          = (aristas.foldl (procEdge act) st).2.1.root e.2 ∧
        ((aristas.foldl (procEdge act) st).1.get_size e.1 : ℤ)
          ≤ (aristas.foldl (procEdge act) st).2.2 ∧
        ((aristas.foldl (procEdge act) st).1.get_size e.2 : ℤ)
          ≤ (aristas.foldl (procEdge act) st).2.2 := by
  intro aristas
  induction aristas with
  | nil =>
    intro st _ _ _ _ e he
    cases he
  | cons f rest ih =>
    intro st hInv1 hInv2 hE hn e he hae1 hae2
    have hf := hE f (List.mem_cons_self f rest)
    obtain ⟨pInv1, pInv2, plen1, plen2, pconn1, pconn2, pNcc, pSmax, pSize⟩ :=
      procEdge_facts act st f hInv1 hInv2 hf.1 hf.2 hn
    have hE' : ∀ e' ∈ rest, e'.1 < (procEdge act st f).1.parent.length
        ∧ e'.2 < (procEdge act st f).1.parent.length := by
      intro e' he'
      rw [plen1]
      exact hE e' (List.mem_cons_of_mem f he')
    have hn' : (procEdge act st f).1.parent.length
        ≤ (procEdge act st f).2.1.parent.length := by
      rw [plen1, plen2]
      exact hn
    rw [List.foldl_cons]
    rcases List.mem_cons.1 he with he | he
    · subst he
      have hact : act.getD e.1 false = true ∧ act.getD e.2 false = true :=
        ⟨hae1, hae2⟩
      have he1' : e.1 < st.2.1.parent.length := lt_of_lt_of_le hf.1 hn
      have he2' : e.2 < st.2.1.parent.length := lt_of_lt_of_le hf.2 hn
      have h1' : (procEdge act st e).1.root e.1 = (procEdge act st e).1.root e.2 := by
        rw [procEdge_eq, if_pos hact]
        exact unite_connects hInv1 hf.1 hf.2
      have h2' : (procEdge act st e).2.1.root e.1
          = (procEdge act st e).2.1.root e.2 := by
        rw [procEdge_eq, if_pos hact]
        exact unite_connects hInv2 he1' he2'
      have h3' : ((procEdge act st e).1.get_size e.1 : ℤ)
          ≤ (procEdge act st e).2.2 := by
        rw [procEdge_eq, if_pos hact]
        exact le_trans (le_max_left _ _) (le_max_right _ _)
      have h4' : ((procEdge act st e).1.get_size e.2 : ℤ)
          ≤ (procEdge act st e).2.2 := by
        rw [procEdge_eq, if_pos hact]
        exact le_trans (le_max_right _ _) (le_max_right _ _)
      obtain ⟨-, -, -, -, qconn1, qconn2, -, -, qSize⟩ :=
        foldEdges_facts act rest (procEdge act st e) pInv1 pInv2 hE' hn'
      exact ⟨qconn1 e.1 e.2 h1', qconn2 e.1 e.2 h2', qSize e.1 h3', qSize e.2 h4'⟩
    · exact ih (procEdge act st f) pInv1 pInv2 hE' hn' e he hae1 hae2

/-- If every active edge is already united and accounted in `Smax`, the edge
loop changes nothing observable: roots, sizes and `Smax` are unchanged. -/
theorem foldEdges_noop (act : List Bool) :
    ∀ (aristas : List (ℕ × ℕ)) (st : UF × UF × ℤ),
      UF.Inv st.1 → UF.Inv st.2.1 →
      (∀ e ∈ aristas, e.1 < st.1.parent.length ∧ e.2 < st.1.parent.length) →
      st.1.parent.length ≤ st.2.1.parent.length →
      (∀ e ∈ aristas, act.getD e.1 false = true → act.getD e.2 false = true →
        st.1.root e.1 = st.1.root e.2 ∧ st.2.1.root e.1 = st.2.1.root e.2 ∧
        ((st.1.get_size e.1 : ℤ) ≤ st.2.2) ∧ ((st.1.get_size e.2 : ℤ) ≤ st.2.2)) →
      (∀ y, (aristas.foldl (procEdge act) st).1.root y = st.1.root y) ∧
      (∀ y, (aristas.foldl (procEdge act) st).2.1.root y = st.2.1.root y) ∧
      (aristas.foldl (procEdge act) st).1.sz = st.1.sz ∧
      (aristas.foldl (procEdge act) st).2.1.sz = st.2.1.sz ∧
      (aristas.foldl (procEdge act) st).2.2 = st.2.2 := by
  intro aristas
  induction aristas with
  | nil =>
    intro st _ _ _ _ _
    exact ⟨fun y => rfl, fun y => rfl, rfl, rfl, rfl⟩
  | cons f rest ih =>
    intro st hInv1 hInv2 hE hn hsat
    have hf := hE f (List.mem_cons_self f rest)
    have he1' : f.1 < st.2.1.parent.length := lt_of_lt_of_le hf.1 hn
    have he2' : f.2 < st.2.1.parent.length := lt_of_lt_of_le hf.2 hn
    rw [List.foldl_cons]
    by_cases hact : act.getD f.1 false = true ∧ act.getD f.2 false = true
    · obtain ⟨hc1, hc2, hs1, hs2⟩ := hsat f (List.mem_cons_self f rest) hact.1 hact.2
      have hroot1 : ∀ y, (procEdge act st f).1.root y = st.1.root y := by
        intro y
        rw [procEdge_eq, if_pos hact]
        exact (unite_noop_of_connected hInv1 hf.1 hf.2 hc1).1 y
      have hroot2 : ∀ y, (procEdge act st f).2.1.root y = st.2.1.root y := by
        intro y
        rw [procEdge_eq, if_pos hact]
        exact (unite_noop_of_connected hInv2 he1' he2' hc2).1 y
      have hsz1 : (procEdge act st f).1.sz = st.1.sz := by
        rw [procEdge_eq, if_pos hact]
        exact (unite_noop_of_connected hInv1 hf.1 hf.2 hc1).2
      have hsz2 : (procEdge act st f).2.1.sz = st.2.1.sz := by
        rw [procEdge_eq, if_pos hact]
        exact (unite_noop_of_connected hInv2 he1' he2' hc2).2
      have hgs : ∀ y, (procEdge act st f).1.get_size y = st.1.get_size y := by
        intro y
        rw [UF.get_size, UF.get_size, hroot1 y, hsz1]
      have hSmax : (procEdge act st f).2.2 = st.2.2 := by
        rw [procEdge_eq, if_pos hact]
        have g1 : ((st.1.unite f.1 f.2).get_size f.1 : ℤ) ≤ st.2.2 := by
          rw [show (st.1.unite f.1 f.2).get_size f.1 = st.1.get_size f.1 by
            rw [UF.get_size, UF.get_size,
              (unite_noop_of_connected hInv1 hf.1 hf.2 hc1).1 f.1,
              (unite_noop_of_connected hInv1 hf.1 hf.2 hc1).2]]
          exact hs1
        have g2 : ((st.1.unite f.1 f.2).get_size f.2 : ℤ) ≤ st.2.2 := by
          rw [show (st.1.unite f.1 f.2).get_size f.2 = st.1.get_size f.2 by
            rw [UF.get_size, UF.get_size,
              (unite_noop_of_connected hInv1 hf.1 hf.2 hc1).1 f.2,
              (unite_noop_of_connected hInv1 hf.1 hf.2 hc1).2]]
          exact hs2
        exact max_eq_left (max_le g1 g2)
      have pInv1 : UF.Inv (procEdge act st f).1 := by
        rw [procEdge_eq, if_pos hact]
        exact unite_inv hInv1 hf.1 hf.2
      have pInv2 : UF.Inv (procEdge act st f).2.1 := by
        rw [procEdge_eq, if_pos hact]
        exact unite_inv hInv2 he1' he2'
      have plen1 : (procEdge act st f).1.parent.length = st.1.parent.length := by
        rw [procEdge_eq, if_pos hact]
        exact unite_length hInv1 hf.1 hf.2
      have plen2 : (procEdge act st f).2.1.parent.length = st.2.1.parent.length := by
        rw [procEdge_eq, if_pos hact]
        exact unite_length hInv2 he1' he2'
      have hE' : ∀ e' ∈ rest, e'.1 < (procEdge act st f).1.parent.length
          ∧ e'.2 < (procEdge act st f).1.parent.length := by
        intro e' he'
        rw [plen1]
        exact hE e' (List.mem_cons_of_mem f he')
      have hn' : (procEdge act st f).1.parent.length
          ≤ (procEdge act st f).2.1.parent.length := by
        rw [plen1, plen2]
        exact hn
      have hsat' : ∀ e ∈ rest, act.getD e.1 false = true → act.getD e.2 false = true →
          (procEdge act st f).1.root e.1 = (procEdge act st f).1.root e.2 ∧
          (procEdge act st f).2.1.root e.1 = (procEdge act st f).2.1.root e.2 ∧
          (((procEdge act st f).1.get_size e.1 : ℤ) ≤ (procEdge act st f).2.2) ∧
          (((procEdge act st f).1.get_size e.2 : ℤ) ≤ (procEdge act st f).2.2) := by
        intro e he hb1 hb2
        obtain ⟨k1, k2, k3, k4⟩ := hsat e (List.mem_cons_of_mem f he) hb1 hb2
        refine ⟨by rw [hroot1, hroot1]; exact k1, by rw [hroot2, hroot2]; exact k2,
          ?_, ?_⟩
        · rw [hgs, hSmax]; exact k3
        · rw [hgs, hSmax]; exact k4
      obtain ⟨q1, q2, q3, q4, q5⟩ := ih (procEdge act st f) pInv1 pInv2 hE' hn' hsat'
      exact ⟨fun y => (q1 y).trans (hroot1 y), fun y => (q2 y).trans (hroot2 y),
        q3.trans hsz1, q4.trans hsz2, q5.trans hSmax⟩
    · rw [procEdge_eq, if_neg hact]
      exact ih st hInv1 hInv2
        (fun e' he' => hE e' (List.mem_cons_of_mem f he')) hn
        (fun e he => hsat e (List.mem_cons_of_mem f he))

/-! ### The activation loop -/

theorem activar_length (numNodos : ℕ) (act : List Bool) (config : List ℚ)
    (p : ℚ) : (activar numNodos act config p).length = act.length := by
  rw [activar]
  generalize List.range numNodos = l
  induction l generalizing act with
  | nil => rfl
  | cons i rest ih =>
    rw [List.foldl_cons]
    refine (ih _).trans ?_
    by_cases h : act.getD i false = false ∧ config.getD i 0 ≤ p
    · rw [if_pos h, List.length_set]
    · rw [if_neg h]

theorem getD_eq_getElem' {α : Type} {l : List α} {n : ℕ} {d : α}
    (h : n < l.length) : l.getD n d = l[n] := by
  rw [List.getD_eq_getElem?_getD, List.getElem?_eq_getElem h]
  rfl

theorem ext_of_getD {l1 l2 : List Bool} (hlen : l1.length = l2.length)
    (h : ∀ i, l1.getD i false = l2.getD i false) : l1 = l2 := by
  apply List.ext_getElem hlen
  intro i h1 h2
  have hh := h i
  rwa [getD_eq_getElem' h1, getD_eq_getElem' h2] at hh

/-- Pointwise description of the activation loop: a node ends active exactly
when it was active or its weight is at or below the threshold. -/
theorem activar_getD (act : List Bool) (config : List ℚ) (p : ℚ) :
    ∀ n, n ≤ act.length → ∀ i,
      (activar n act config p).getD i false
        = if i < n then (act.getD i false || decide (config.getD i 0 ≤ p))
          else act.getD i false := by
  intro n
  induction n with
  | zero =>
    intro _ i
    rw [activar]
    simp
  | succ n ih =>
    intro hn i
    have hstep : activar (n + 1) act config p
        = (fun (a : List Bool) (j : ℕ) =>
            if a.getD j false = false ∧ config.getD j 0 ≤ p then a.set j true
            else a) (activar n act config p) n := by
      rw [activar, activar, List.range_succ, List.foldl_append, List.foldl_cons,
        List.foldl_nil]
    rw [hstep]
    simp only []
    have ihn := ih (by omega)
    have hAn : (activar n act config p).getD n false = act.getD n false := by
      rw [ihn n]
      simp
    have hAlen : (activar n act config p).length = act.length :=
      activar_length n act config p
    by_cases hcond : (activar n act config p).getD n false = false
        ∧ config.getD n 0 ≤ p
    · rw [if_pos hcond]
      by_cases hin : i = n
      · subst hin
        rw [getD_set_self (by omega), if_pos (by omega), hAn.symm.trans hcond.1]
        simpa using hcond.2
      · rw [getD_set_ne (fun h => hin h.symm), ihn i]
        by_cases hlt : i < n
        · rw [if_pos hlt, if_pos (by omega)]
        · rw [if_neg hlt, if_neg (by omega)]
    · rw [if_neg hcond, ihn i]
      by_cases hin : i = n
      · subst hin
        rw [if_neg (by omega), if_pos (by omega)]
        rcases not_and_or.1 hcond with h | h
        · have htrue : act.getD i false = true := by
            rw [← hAn]
            cases hb : (activar i act config p).getD i false
            · exact absurd hb h
            · rfl
          rw [htrue]
          rfl
        · have : decide (config.getD i 0 ≤ p) = false := decide_eq_false h
          rw [this, Bool.or_false]
      · by_cases hlt : i < n
        · rw [if_pos hlt, if_pos (by omega)]
        · rw [if_neg hlt, if_neg (by omega)]

/-- The successful branch of the incremental step, written out. -/
theorem step_eq (s : Engine) (aristas : List (ℕ × ℕ)) (configuracion : List ℚ)
    (p : ℚ) (Smax : ℤ) (hp : ¬ p < s.current_p) :
    generate_single_percolation s aristas configuracion p Smax
      = ⟨{ s with
            uf := (aristas.foldl
              (procEdge (activar s.numNodos s.nodoActivo configuracion p))
              (s.uf, s.uf_aux, Smax)).1,
            uf_aux := (aristas.foldl
              (procEdge (activar s.numNodos s.nodoActivo configuracion p))
              (s.uf, s.uf_aux, Smax)).2.1,
            nodoActivo := activar s.numNodos s.nodoActivo configuracion p,
            current_p := p },
          (aristas.foldl
            (procEdge (activar s.numNodos s.nodoActivo configuracion p))
            (s.uf, s.uf_aux, Smax)).2.2,
          (aristas.foldl
            (procEdge (activar s.numNodos s.nodoActivo configuracion p))
            (s.uf, s.uf_aux, Smax)).1.Ncc s.numNodos,
          false⟩ := by
  rw [generate_single_percolation, if_neg hp]

/-! ### The constructor satisfies the invariant -/

theorem pget_range (n x : ℕ) : pget (List.range n) x = x := by
  by_cases h : x < n
  · rw [pget, List.getD_eq_getElem?_getD, List.getElem?_range h]
    rfl
  · exact pget_of_len_le (by rw [List.length_range]; omega)

theorem UFInv_init (n : ℕ) : UF.Inv (UF.init n) := by
  refine ⟨?_, ⟨fun _ => 0, ?_⟩, ?_⟩
  · intro i hi
    rw [show (UF.init n).parent = List.range n from rfl] at hi ⊢
    rw [pget_range]
    exact hi
  · intro x hx
    exact absurd (pget_range n x) hx
  · simp [UF.init]

theorem engineInv_init (n : ℕ) : EngineInv (SitePercolation n) := by
  refine ⟨UFInv_init n, UFInv_init (n + 2), ?_, ?_, ?_, rfl, rfl⟩ <;>
    simp [SitePercolation, UF.init]

/-! ### The claims -/

/-- C1: for every engine state and every threshold `p < current_p`, the
incremental step performs no mutation whatsoever — the returned engine is
the input engine (activation vector, both disjoint-set structures, and
`current_p` included), `Smax` is passed back unchanged, the violation is
reported (`err = true`), and the returned component count is the previous
one (`Ncc` of the untouched primary structure). -/
theorem claim_C1 (s : Engine) (aristas : List (ℕ × ℕ)) (configuracion : List ℚ)
    (p : ℚ) (Smax : ℤ) (h : p < s.current_p) :
    generate_single_percolation s aristas configuracion p Smax
      = ⟨s, Smax, s.uf.Ncc s.numNodos, true⟩ := by
  rw [generate_single_percolation, if_pos h]

theorem claim_C1_witness :
    (mkRat 1 4 < ({ SitePercolation 1 with current_p := mkRat 1 2 } : Engine).current_p) ∧
    generate_single_percolation
        { SitePercolation 1 with current_p := mkRat 1 2 } [(0, 0)] [mkRat 1 8]
        (mkRat 1 4) 0
      = ⟨{ SitePercolation 1 with current_p := mkRat 1 2 }, 0,
          ({ SitePercolation 1 with current_p := mkRat 1 2 } : Engine).uf.Ncc
            ({ SitePercolation 1 with current_p := mkRat 1 2 } : Engine).numNodos,
          true⟩ :=
  ⟨by decide,
    claim_C1 { SitePercolation 1 with current_p := mkRat 1 2 } [(0, 0)]
      [mkRat 1 8] (mkRat 1 4) 0 (by decide)⟩

/-- C5: on a successful incremental step with threshold `p`, every
not-yet-active node with weight `≤ p` becomes active (inclusive boundary),
every not-yet-active node with weight `> p` remains inactive, and no active
node becomes inactive. -/
theorem claim_C5 (s : Engine) (aristas : List (ℕ × ℕ)) (configuracion : List ℚ)
    (p : ℚ) (Smax : ℤ) (hp : ¬ p < s.current_p)
    (hlen : s.nodoActivo.length = s.numNodos) :
    (∀ i, i < s.numNodos → s.nodoActivo.getD i false = false →
      configuracion.getD i 0 ≤ p →
      (generate_single_percolation s aristas configuracion p Smax).state.nodoActivo.getD i false
        = true) ∧
    (∀ i, s.nodoActivo.getD i false = false → p < configuracion.getD i 0 →
      (generate_single_percolation s aristas configuracion p Smax).state.nodoActivo.getD i false
        = false) ∧
    (∀ i, s.nodoActivo.getD i false = true →
      (generate_single_percolation s aristas configuracion p Smax).state.nodoActivo.getD i false
        = true) := by
  rw [step_eq s aristas configuracion p Smax hp]
  have hgetD := activar_getD s.nodoActivo configuracion p s.numNodos (by omega)
  refine ⟨?_, ?_, ?_⟩
  · intro i hi hinact hw
    rw [hgetD i, if_pos hi, hinact]
    simpa using hw
  · intro i hinact hw
    rw [hgetD i]
    by_cases hi : i < s.numNodos
    · rw [if_pos hi, hinact]
      simpa using hw
    · rw [if_neg hi]
      exact hinact
  · intro i hact
    rw [hgetD i]
    by_cases hi : i < s.numNodos
    · rw [if_pos hi, hact]
      rfl
    · rw [if_neg hi]
      exact hact

theorem claim_C5_witness :
    (¬ mkRat 1 2 < (SitePercolation 2).current_p) ∧
    ((SitePercolation 2).nodoActivo.length = (SitePercolation 2).numNodos) ∧
    ((∀ i, i < (SitePercolation 2).numNodos →
        (SitePercolation 2).nodoActivo.getD i false = false →
        [mkRat 1 4, mkRat 3 4].getD i 0 ≤ mkRat 1 2 →
        (generate_single_percolation (SitePercolation 2) [(0, 1)]
          [mkRat 1 4, mkRat 3 4] (mkRat 1 2) 1).state.nodoActivo.getD i false = true) ∧
     (∀ i, (SitePercolation 2).nodoActivo.getD i false = false →
        mkRat 1 2 < [mkRat 1 4, mkRat 3 4].getD i 0 →
        (generate_single_percolation (SitePercolation 2) [(0, 1)]
          [mkRat 1 4, mkRat 3 4] (mkRat 1 2) 1).state.nodoActivo.getD i false = false) ∧
     (∀ i, (SitePercolation 2).nodoActivo.getD i false = true →
        (generate_single_percolation (SitePercolation 2) [(0, 1)]
          [mkRat 1 4, mkRat 3 4] (mkRat 1 2) 1).state.nodoActivo.getD i false = true)) :=
  ⟨by decide, by decide,
    claim_C5 (SitePercolation 2) [(0, 1)] [mkRat 1 4, mkRat 3 4] (mkRat 1 2) 1
      (by decide) (by decide)⟩

/-- C4: over consecutive successful calls of the incremental step with
non-decreasing thresholds `p1 ≤ p2`, the returned component count does not
increase. -/
theorem claim_C4 (s : Engine) (aristas : List (ℕ × ℕ)) (configuracion : List ℚ)
    (p1 p2 : ℚ) (Smax : ℤ) (hInv : EngineInv s)
    (hE : EdgesOk aristas s.numNodos)
    (h1 : ¬ p1 < s.current_p) (h12 : p1 ≤ p2) :
    (generate_single_percolation
        (generate_single_percolation s aristas configuracion p1 Smax).state
        aristas configuracion p2
        (generate_single_percolation s aristas configuracion p1 Smax).Smax).ncc
      ≤ (generate_single_percolation s aristas configuracion p1 Smax).ncc := by
  obtain ⟨hIuf, hIaux, hLuf, hLaux, hLact, hTop, hBot⟩ := hInv
  have hE1 : ∀ e ∈ aristas, e.1 < s.uf.parent.length ∧ e.2 < s.uf.parent.length := by
    intro e he
    rw [hLuf]
    exact hE e he
  have hn1 : s.uf.parent.length ≤ s.uf_aux.parent.length := by
    rw [hLuf, hLaux]
    omega
  obtain ⟨I1, I2, L1, L2, -, -, -, -, -⟩ :=
    foldEdges_facts (activar s.numNodos s.nodoActivo configuracion p1) aristas
      (s.uf, s.uf_aux, Smax) hIuf hIaux hE1 hn1
  rw [step_eq s aristas configuracion p1 Smax h1]
  rw [step_eq _ aristas configuracion p2 _ (show ¬ p2 < p1 from not_lt.2 h12)]
  refine (foldEdges_facts _ aristas _ I1 I2 ?_ ?_).2.2.2.2.2.2.1 s.numNodos
  · intro e he
    rw [L1]
    exact hE1 e he
  · rw [L1, L2]
    exact hn1

theorem claim_C4_witness :
    EngineInv (SitePercolation 2) ∧ EdgesOk [(0, 1)] (SitePercolation 2).numNodos ∧
    (¬ mkRat 1 4 < (SitePercolation 2).current_p) ∧ (mkRat 1 4 ≤ mkRat 1 2) ∧
    (generate_single_percolation
        (generate_single_percolation (SitePercolation 2) [(0, 1)]
          [mkRat 1 4, mkRat 1 2] (mkRat 1 4) 1).state
        [(0, 1)] [mkRat 1 4, mkRat 1 2] (mkRat 1 2)
        (generate_single_percolation (SitePercolation 2) [(0, 1)]
          [mkRat 1 4, mkRat 1 2] (mkRat 1 4) 1).Smax).ncc
      ≤ (generate_single_percolation (SitePercolation 2) [(0, 1)]
          [mkRat 1 4, mkRat 1 2] (mkRat 1 4) 1).ncc :=
  ⟨engineInv_init 2, by decide, by decide, by decide,
    claim_C4 (SitePercolation 2) [(0, 1)] [mkRat 1 4, mkRat 1 2]
      (mkRat 1 4) (mkRat 1 2) 1 (engineInv_init 2) (by decide) (by decide)
      (by decide)⟩

theorem Ncc_congr {u v : UF} (h : ∀ y, u.root y = v.root y) (m : ℕ) :
    u.Ncc m = v.Ncc m := by
  rw [UF.Ncc, UF.Ncc]
  congr 1
  exact Finset.image_congr (fun x _ => h x)

/-- C10: a call with `p` equal to `current_p` is accepted (the ordering
check is strict), and an immediate repeat of a successful call with the same
arguments is observably idempotent: it is again accepted, returns the same
component count, and leaves the activation vector, `Smax`, `current_p`, and
the partition of each disjoint-set structure (every element's
representative) unchanged. -/
theorem claim_C10 (s : Engine) (aristas : List (ℕ × ℕ)) (configuracion : List ℚ)
    (p : ℚ) (Smax : ℤ) (hInv : EngineInv s) (hE : EdgesOk aristas s.numNodos)
    (hp : ¬ p < s.current_p) :
    (generate_single_percolation
        (generate_single_percolation s aristas configuracion p Smax).state
        aristas configuracion p
        (generate_single_percolation s aristas configuracion p Smax).Smax).err
      = false ∧
    (generate_single_percolation
        (generate_single_percolation s aristas configuracion p Smax).state
        aristas configuracion p
        (generate_single_percolation s aristas configuracion p Smax).Smax).ncc
      = (generate_single_percolation s aristas configuracion p Smax).ncc ∧
    (generate_single_percolation
        (generate_single_percolation s aristas configuracion p Smax).state
        aristas configuracion p
        (generate_single_percolation s aristas configuracion p Smax).Smax).state.nodoActivo
      = (generate_single_percolation s aristas configuracion p Smax).state.nodoActivo ∧
    (generate_single_percolation
        (generate_single_percolation s aristas configuracion p Smax).state
        aristas configuracion p
        (generate_single_percolation s aristas configuracion p Smax).Smax).Smax
      = (generate_single_percolation s aristas configuracion p Smax).Smax ∧
    (generate_single_percolation
        (generate_single_percolation s aristas configuracion p Smax).state
        aristas configuracion p
        (generate_single_percolation s aristas configuracion p Smax).Smax).state.current_p
      = (generate_single_percolation s aristas configuracion p Smax).state.current_p ∧
    (∀ y, (generate_single_percolation
        (generate_single_percolation s aristas configuracion p Smax).state
        aristas configuracion p
        (generate_single_percolation s aristas configuracion p Smax).Smax).state.uf.root y
      = (generate_single_percolation s aristas configuracion p Smax).state.uf.root y) ∧
    (∀ y, (generate_single_percolation
        (generate_single_percolation s aristas configuracion p Smax).state
        aristas configuracion p
        (generate_single_percolation s aristas configuracion p Smax).Smax).state.uf_aux.root y
      = (generate_single_percolation s aristas configuracion p Smax).state.uf_aux.root y) := by
  obtain ⟨hIuf, hIaux, hLuf, hLaux, hLact, hTop, hBot⟩ := hInv
  have hE1 : ∀ e ∈ aristas, e.1 < s.uf.parent.length ∧ e.2 < s.uf.parent.length := by
    intro e he
    rw [hLuf]
    exact hE e he
  have hn1 : s.uf.parent.length ≤ s.uf_aux.parent.length := by
    rw [hLuf, hLaux]
    omega
  obtain ⟨I1, I2, L1, L2, -, -, -, -, -⟩ :=
    foldEdges_facts (activar s.numNodos s.nodoActivo configuracion p) aristas
      (s.uf, s.uf_aux, Smax) hIuf hIaux hE1 hn1
  have hact2 : activar s.numNodos
      (activar s.numNodos s.nodoActivo configuracion p) configuracion p
      = activar s.numNodos s.nodoActivo configuracion p := by
    apply ext_of_getD (activar_length _ _ _ _)
    intro i
    have g1 := activar_getD s.nodoActivo configuracion p s.numNodos (by omega) i
    have g2 := activar_getD (activar s.numNodos s.nodoActivo configuracion p)
      configuracion p s.numNodos (by rw [activar_length]; omega) i
    rw [g2]
    by_cases hi : i < s.numNodos
    · rw [if_pos hi, g1, if_pos hi]
      cases s.nodoActivo.getD i false <;>
        cases hd : decide (configuracion.getD i 0 ≤ p) <;> simp
    · rw [if_neg hi]
  have hsat0 := foldEdges_saturated (activar s.numNodos s.nodoActivo configuracion p)
      aristas (s.uf, s.uf_aux, Smax) hIuf hIaux hE1 hn1
  have hE2 : ∀ e ∈ aristas,
      e.1 < (aristas.foldl (procEdge (activar s.numNodos s.nodoActivo configuracion p))
        (s.uf, s.uf_aux, Smax)).1.parent.length ∧
      e.2 < (aristas.foldl (procEdge (activar s.numNodos s.nodoActivo configuracion p))
        (s.uf, s.uf_aux, Smax)).1.parent.length := by
    intro e he
    rw [L1]
    exact hE1 e he
  have hn2 : (aristas.foldl (procEdge (activar s.numNodos s.nodoActivo configuracion p))
        (s.uf, s.uf_aux, Smax)).1.parent.length
      ≤ (aristas.foldl (procEdge (activar s.numNodos s.nodoActivo configuracion p))
        (s.uf, s.uf_aux, Smax)).2.1.parent.length := by
    rw [L1, L2]
    exact hn1
  obtain ⟨q1, q2, q3, q4, q5⟩ :=
    foldEdges_noop (activar s.numNodos s.nodoActivo configuracion p) aristas
      (aristas.foldl (procEdge (activar s.numNodos s.nodoActivo configuracion p))
        (s.uf, s.uf_aux, Smax))
      I1 I2 hE2 hn2 (fun e he h1 h2 => hsat0 e he h1 h2)
  have h2 : ¬ p < (generate_single_percolation s aristas configuracion p Smax).state.current_p := by
    rw [step_eq s aristas configuracion p Smax hp]
    exact lt_irrefl p
  rw [step_eq (generate_single_percolation s aristas configuracion p Smax).state
    aristas configuracion p
    (generate_single_percolation s aristas configuracion p Smax).Smax h2]
  rw [step_eq s aristas configuracion p Smax hp]
  simp only [hact2]
  exact ⟨trivial, Ncc_congr q1 s.numNodos, trivial, q5, trivial, q1, q2⟩

theorem claim_C10_witness :
    EngineInv (SitePercolation 2) ∧ EdgesOk [(0, 1)] (SitePercolation 2).numNodos ∧
    (¬ mkRat 1 2 < (SitePercolation 2).current_p) ∧
    ((generate_single_percolation
        (generate_single_percolation (SitePercolation 2) [(0, 1)]
          [mkRat 1 4, mkRat 1 4] (mkRat 1 2) 1).state
        [(0, 1)] [mkRat 1 4, mkRat 1 4] (mkRat 1 2)
        (generate_single_percolation (SitePercolation 2) [(0, 1)]
          [mkRat 1 4, mkRat 1 4] (mkRat 1 2) 1).Smax).err = false ∧
     (generate_single_percolation
        (generate_single_percolation (SitePercolation 2) [(0, 1)]
          [mkRat 1 4, mkRat 1 4] (mkRat 1 2) 1).state
        [(0, 1)] [mkRat 1 4, mkRat 1 4] (mkRat 1 2)
        (generate_single_percolation (SitePercolation 2) [(0, 1)]
          [mkRat 1 4, mkRat 1 4] (mkRat 1 2) 1).Smax).ncc
      = (generate_single_percolation (SitePercolation 2) [(0, 1)]
          [mkRat 1 4, mkRat 1 4] (mkRat 1 2) 1).ncc ∧
     (generate_single_percolation
        (generate_single_percolation (SitePercolation 2) [(0, 1)]
          [mkRat 1 4, mkRat 1 4] (mkRat 1 2) 1).state
        [(0, 1)] [mkRat 1 4, mkRat 1 4] (mkRat 1 2)
        (generate_single_percolation (SitePercolation 2) [(0, 1)]
          [mkRat 1 4, mkRat 1 4] (mkRat 1 2) 1).Smax).state.nodoActivo
      = (generate_single_percolation (SitePercolation 2) [(0, 1)]
          [mkRat 1 4, mkRat 1 4] (mkRat 1 2) 1).state.nodoActivo ∧
     (generate_single_percolation
        (generate_single_percolation (SitePercolation 2) [(0, 1)]
          [mkRat 1 4, mkRat 1 4] (mkRat 1 2) 1).state
        [(0, 1)] [mkRat 1 4, mkRat 1 4] (mkRat 1 2)
        (generate_single_percolation (SitePercolation 2) [(0, 1)]
          [mkRat 1 4, mkRat 1 4] (mkRat 1 2) 1).Smax).Smax
      = (generate_single_percolation (SitePercolation 2) [(0, 1)]
          [mkRat 1 4, mkRat 1 4] (mkRat 1 2) 1).Smax ∧
     (generate_single_percolation
        (generate_single_percolation (SitePercolation 2) [(0, 1)]
          [mkRat 1 4, mkRat 1 4] (mkRat 1 2) 1).state
        [(0, 1)] [mkRat 1 4, mkRat 1 4] (mkRat 1 2)
        (generate_single_percolation (SitePercolation 2) [(0, 1)]
          [mkRat 1 4, mkRat 1 4] (mkRat 1 2) 1).Smax).state.current_p
      = (generate_single_percolation (SitePercolation 2) [(0, 1)]
          [mkRat 1 4, mkRat 1 4] (mkRat 1 2) 1).state.current_p ∧
     (∀ y, (generate_single_percolation
        (generate_single_percolation (SitePercolation 2) [(0, 1)]
          [mkRat 1 4, mkRat 1 4] (mkRat 1 2) 1).state
        [(0, 1)] [mkRat 1 4, mkRat 1 4] (mkRat 1 2)
        (generate_single_percolation (SitePercolation 2) [(0, 1)]
          [mkRat 1 4, mkRat 1 4] (mkRat 1 2) 1).Smax).state.uf.root y
      = (generate_single_percolation (SitePercolation 2) [(0, 1)]
          [mkRat 1 4, mkRat 1 4] (mkRat 1 2) 1).state.uf.root y) ∧
     (∀ y, (generate_single_percolation
        (generate_single_percolation (SitePercolation 2) [(0, 1)]
          [mkRat 1 4, mkRat 1 4] (mkRat 1 2) 1).state
        [(0, 1)] [mkRat 1 4, mkRat 1 4] (mkRat 1 2)
        (generate_single_percolation (SitePercolation 2) [(0, 1)]
          [mkRat 1 4, mkRat 1 4] (mkRat 1 2) 1).Smax).state.uf_aux.root y
      = (generate_single_percolation (SitePercolation 2) [(0, 1)]
          [mkRat 1 4, mkRat 1 4] (mkRat 1 2) 1).state.uf_aux.root y)) :=
  ⟨engineInv_init 2, by decide, by decide,
    claim_C10 (SitePercolation 2) [(0, 1)] [mkRat 1 4, mkRat 1 4] (mkRat 1 2) 1
      (engineInv_init 2) (by decide) (by decide)⟩

theorem sweepIters_zero (s : Engine) (aristas : List (ℕ × ℕ))
    (configuracion : List ℚ) (step : ℚ) (vis : Bool) :
    sweepIters s aristas configuracion step vis 0
      = ⟨initialize_supernodes s, 1, false, []⟩ := rfl

theorem sweepIters_succ (s : Engine) (aristas : List (ℕ × ℕ))
    (configuracion : List ℚ) (step : ℚ) (vis : Bool) (i : ℕ) :
    sweepIters s aristas configuracion step vis (i + 1)
      = loopBody aristas configuracion vis
          (sweepIters s aristas configuracion step vis i) (pOf step i) := by
  rw [sweepIters, sweepIters, List.range_succ, List.foldl_append, List.foldl_cons,
    List.foldl_nil]

/-- Connectivity facts established by the supernode initialization loop. -/
theorem initFold_facts (n : ℕ) (side : ℕ) (hside : side ≤ n) :
    ∀ (k : ℕ), k ≤ side → ∀ (ua : UF), UF.Inv ua → ua.parent.length = n + 2 →
      UF.Inv ((List.range k).foldl
        (fun u i => (u.unite n i).unite (n + 1) (n - side + i)) ua) ∧
      ((List.range k).foldl
        (fun u i => (u.unite n i).unite (n + 1) (n - side + i)) ua).parent.length
        = n + 2 ∧
      (∀ x y, ua.root x = ua.root y →
        ((List.range k).foldl
          (fun u i => (u.unite n i).unite (n + 1) (n - side + i)) ua).root x
        = ((List.range k).foldl
          (fun u i => (u.unite n i).unite (n + 1) (n - side + i)) ua).root y) ∧
      (∀ i, i < k →
        ((List.range k).foldl
          (fun u i => (u.unite n i).unite (n + 1) (n - side + i)) ua).root i
          = ((List.range k).foldl
            (fun u i => (u.unite n i).unite (n + 1) (n - side + i)) ua).root n ∧
        ((List.range k).foldl
          (fun u i => (u.unite n i).unite (n + 1) (n - side + i)) ua).root (n - side + i)
          = ((List.range k).foldl
            (fun u i => (u.unite n i).unite (n + 1) (n - side + i)) ua).root (n + 1)) := by
  intro k
  induction k with
  | zero =>
    intro _ ua hInv hlen
    exact ⟨hInv, hlen, fun x y h => h, fun i hi => absurd hi (by omega)⟩
  | succ k ih =>
    intro hk ua hInv hlen
    obtain ⟨pInv, plen, pconn, pdone⟩ := ih (by omega) ua hInv hlen
    set A := (List.range k).foldl
      (fun u i => (u.unite n i).unite (n + 1) (n - side + i)) ua with hA
    have hrw : (List.range (k + 1)).foldl
        (fun u i => (u.unite n i).unite (n + 1) (n - side + i)) ua
        = (A.unite n k).unite (n + 1) (n - side + k) := by
      rw [List.range_succ, List.foldl_append, List.foldl_cons, List.foldl_nil]
    rw [hrw]
    have hbn : (n : ℕ) < A.parent.length := by omega
    have hbk : k < A.parent.length := by omega
    have hInvA1 : UF.Inv (A.unite n k) := unite_inv pInv hbn hbk
    have hlenA1 : (A.unite n k).parent.length = n + 2 :=
      (unite_length pInv hbn hbk).trans plen
    have hbn1 : n + 1 < (A.unite n k).parent.length := by omega
    have hbnk : n - side + k < (A.unite n k).parent.length := by omega
    refine ⟨unite_inv hInvA1 hbn1 hbnk,
      (unite_length hInvA1 hbn1 hbnk).trans hlenA1, ?_, ?_⟩
    · intro x y h
      exact unite_preserves_conn hInvA1 hbn1 hbnk
        (unite_preserves_conn pInv hbn hbk (pconn x y h))
    · intro i hi
      rcases Nat.lt_succ_iff_lt_or_eq.1 hi with hik | hik
      · obtain ⟨d1, d2⟩ := pdone i hik
        exact ⟨unite_preserves_conn hInvA1 hbn1 hbnk
            (unite_preserves_conn pInv hbn hbk d1),
          unite_preserves_conn hInvA1 hbn1 hbnk
            (unite_preserves_conn pInv hbn hbk d2)⟩
      · subst hik
        constructor
        · have h1 : (A.unite n i).root i = (A.unite n i).root n :=
            (unite_connects pInv hbn hbk).symm
          exact unite_preserves_conn hInvA1 hbn1 hbnk h1
        · exact (unite_connects hInvA1 hbn1 hbnk).symm

/-- C6: `initialize_supernodes` computes `side = ⌊√N⌋` and unites, in the
boundary structure of size `N + 2`, the top terminal (index `N`) with nodes
`0 … side-1` and the bottom terminal (index `N + 1`) with nodes
`N-side … N-1`.  A non-square `N` needs no hypothesis (the theorem holds
for every `N`), and the full sweep is exactly the loop run once from the
initialized engine, with the initialization performed before iteration 0. -/
theorem claim_C6 (n : ℕ) (aristas : List (ℕ × ℕ)) (configuracion : List ℚ)
    (step : ℚ) (vis : Bool) :
    (∀ i, i < Nat.sqrt n →
      (initialize_supernodes (SitePercolation n)).uf_aux.root i
        = (initialize_supernodes (SitePercolation n)).uf_aux.root n) ∧
    (∀ i, i < Nat.sqrt n →
      (initialize_supernodes (SitePercolation n)).uf_aux.root (n - Nat.sqrt n + i)
        = (initialize_supernodes (SitePercolation n)).uf_aux.root (n + 1)) ∧
    generate_full_percolation (SitePercolation n) aristas configuracion step vis
      = ((sweepIters (SitePercolation n) aristas configuracion step vis
            (sweepCount step)).s,
         (sweepIters (SitePercolation n) aristas configuracion step vis
            (sweepCount step)).res) ∧
    sweepIters (SitePercolation n) aristas configuracion step vis 0
      = ⟨initialize_supernodes (SitePercolation n), 1, false, []⟩ := by
  have hside : Nat.sqrt n ≤ n := Nat.sqrt_le_self n
  have hinit : (initialize_supernodes (SitePercolation n)).uf_aux
      = (List.range (Nat.sqrt n)).foldl
          (fun u i => (u.unite n i).unite (n + 1) (n - Nat.sqrt n + i))
          (UF.init (n + 2)) := by
    rw [initialize_supernodes]
    rw [show (SitePercolation n).numNodos = n from rfl,
      show (SitePercolation n).superTop = n from rfl,
      show (SitePercolation n).superBottom = n + 1 from rfl,
      show (SitePercolation n).uf_aux = UF.init (n + 2) from rfl,
      isqrt_eq_sqrt]
  obtain ⟨-, -, -, hdone⟩ :=
    initFold_facts n (Nat.sqrt n) hside (Nat.sqrt n) le_rfl (UF.init (n + 2))
      (UFInv_init (n + 2)) (by rw [show (UF.init (n + 2)).parent = List.range (n + 2) from rfl, List.length_range])
  refine ⟨?_, ?_, rfl, rfl⟩
  · intro i hi
    rw [show (initialize_supernodes (SitePercolation n)).uf_aux.root
        = fun z => (initialize_supernodes (SitePercolation n)).uf_aux.root z from rfl]
    simp only [hinit]
    exact (hdone i hi).1
  · intro i hi
    simp only [hinit]
    exact (hdone i hi).2

theorem claim_C6_witness :
    (∀ i, i < Nat.sqrt 5 →
      (initialize_supernodes (SitePercolation 5)).uf_aux.root i
        = (initialize_supernodes (SitePercolation 5)).uf_aux.root 5) ∧
    (∀ i, i < Nat.sqrt 5 →
      (initialize_supernodes (SitePercolation 5)).uf_aux.root (5 - Nat.sqrt 5 + i)
        = (initialize_supernodes (SitePercolation 5)).uf_aux.root (5 + 1)) ∧
    generate_full_percolation (SitePercolation 5) [(0, 1)] [0, 0, 0, 0, 0] 2 false
      = ((sweepIters (SitePercolation 5) [(0, 1)] [0, 0, 0, 0, 0] 2 false
            (sweepCount 2)).s,
         (sweepIters (SitePercolation 5) [(0, 1)] [0, 0, 0, 0, 0] 2 false
            (sweepCount 2)).res) ∧
    sweepIters (SitePercolation 5) [(0, 1)] [0, 0, 0, 0, 0] 2 false 0
      = ⟨initialize_supernodes (SitePercolation 5), 1, false, []⟩ :=
  claim_C6 5 [(0, 1)] [0, 0, 0, 0, 0] 2 false

/-- C7 counterexample: `has_percolation` is not a pure query — the two
`find` calls it issues compress paths in the boundary structure, rewriting
parent pointers.  Concretely, on an engine whose boundary structure was
built by three unions leaving the top supernode at depth 2, calling
`has_percolation` changes the engine. -/
theorem claim_C7_counterexample :
    (has_percolation
      { SitePercolation 2 with
          uf_aux := (((UF.init 4).unite 1 0).unite 3 2).unite 0 2 }).2
    ≠ { SitePercolation 2 with
          uf_aux := (((UF.init 4).unite 1 0).unite 3 2).unite 0 2 } := by decide

theorem hasPerc_facts (s : Engine) (hInv : UF.Inv s.uf_aux) :
    (has_percolation s).1
      = decide (s.uf_aux.root s.superTop = s.uf_aux.root s.superBottom) ∧
    (has_percolation s).2.uf = s.uf ∧
    (has_percolation s).2.numNodos = s.numNodos ∧
    (has_percolation s).2.current_p = s.current_p ∧
    (has_percolation s).2.nodoActivo = s.nodoActivo ∧
    (has_percolation s).2.superTop = s.superTop ∧
    (has_percolation s).2.superBottom = s.superBottom ∧
    (has_percolation s).2.p_c = s.p_c ∧
    (has_percolation s).2.uf_aux.sz = s.uf_aux.sz ∧
    (∀ y, (has_percolation s).2.uf_aux.root y = s.uf_aux.root y) := by
  obtain ⟨hb, hd, hs⟩ := hInv
  obtain ⟨hb1, hd1, hs1⟩ : UF.Inv (s.uf_aux.find s.superTop).2 :=
    find_inv ⟨hb, hd, hs⟩ _
  have hr1 : ∀ y, (s.uf_aux.find s.superTop).2.root y = s.uf_aux.root y :=
    find_root s.uf_aux hb hd s.superTop
  have hr2 : ∀ y, ((s.uf_aux.find s.superTop).2.find s.superBottom).2.root y
      = s.uf_aux.root y :=
    fun y => (find_root (s.uf_aux.find s.superTop).2 hb1 hd1 s.superBottom y).trans
      (hr1 y)
  refine ⟨?_, rfl, rfl, rfl, rfl, rfl, rfl, rfl, rfl, hr2⟩
  show decide ((s.uf_aux.find s.superTop).1
      = ((s.uf_aux.find s.superTop).2.find s.superBottom).1) = _
  rw [show ((s.uf_aux.find s.superTop).2.find s.superBottom).1
      = s.uf_aux.root s.superBottom from hr1 s.superBottom]
  rfl

/-- C7 amended: `has_percolation()` returns whether `find(top)` equals
`find(bottom)`; it leaves every engine field except the boundary structure
unchanged, and in the boundary structure it preserves the size vector and
every element's representative (the partition), though path compression may
rewrite parent pointers. -/
theorem claim_C7 (s : Engine) (hInv : UF.Inv s.uf_aux) :
    (has_percolation s).1
      = decide (s.uf_aux.root s.superTop = s.uf_aux.root s.superBottom) ∧
    (has_percolation s).2.uf = s.uf ∧
    (has_percolation s).2.numNodos = s.numNodos ∧
    (has_percolation s).2.current_p = s.current_p ∧
    (has_percolation s).2.nodoActivo = s.nodoActivo ∧
    (has_percolation s).2.superTop = s.superTop ∧
    (has_percolation s).2.superBottom = s.superBottom ∧
    (has_percolation s).2.p_c = s.p_c ∧
    (has_percolation s).2.uf_aux.sz = s.uf_aux.sz ∧
    (∀ y, (has_percolation s).2.uf_aux.root y = s.uf_aux.root y) :=
  hasPerc_facts s hInv

theorem claim_C7_witness :
    UF.Inv (SitePercolation 1).uf_aux ∧
    ((has_percolation (SitePercolation 1)).1
      = decide ((SitePercolation 1).uf_aux.root (SitePercolation 1).superTop
          = (SitePercolation 1).uf_aux.root (SitePercolation 1).superBottom) ∧
     (has_percolation (SitePercolation 1)).2.uf = (SitePercolation 1).uf ∧
     (has_percolation (SitePercolation 1)).2.numNodos = (SitePercolation 1).numNodos ∧
     (has_percolation (SitePercolation 1)).2.current_p = (SitePercolation 1).current_p ∧
     (has_percolation (SitePercolation 1)).2.nodoActivo = (SitePercolation 1).nodoActivo ∧
     (has_percolation (SitePercolation 1)).2.superTop = (SitePercolation 1).superTop ∧
     (has_percolation (SitePercolation 1)).2.superBottom = (SitePercolation 1).superBottom ∧
     (has_percolation (SitePercolation 1)).2.p_c = (SitePercolation 1).p_c ∧
     (has_percolation (SitePercolation 1)).2.uf_aux.sz = (SitePercolation 1).uf_aux.sz ∧
     (∀ y, (has_percolation (SitePercolation 1)).2.uf_aux.root y
        = (SitePercolation 1).uf_aux.root y)) :=
  ⟨UFInv_init 3, claim_C7 (SitePercolation 1) (UFInv_init 3)⟩

/-! ### The sweep loop body -/

theorem dump_facts (n : ℕ) (u : UF) (hInv : UF.Inv u) :
    UF.Inv (dumpRoots n u) ∧ (dumpRoots n u).parent.length = u.parent.length ∧
    (dumpRoots n u).sz = u.sz ∧ (∀ y, (dumpRoots n u).root y = u.root y) := by
  rw [dumpRoots]
  generalize List.range n = l
  induction l generalizing u with
  | nil => exact ⟨hInv, rfl, rfl, fun _ => rfl⟩
  | cons i rest ih =>
    rw [List.foldl_cons]
    obtain ⟨q1, q2, q3, q4⟩ := ih (u.find i).2 (find_inv hInv i)
    exact ⟨q1, q2.trans (find_parent_length u i), q3.trans (find_sz u i),
      fun y => (q4 y).trans (find_root u hInv.1 hInv.2.1 i y)⟩

theorem hasPerc_inv {s : Engine} (hInv : EngineInv s) :
    EngineInv (has_percolation s).2 := by
  obtain ⟨hIuf, hIaux, hLuf, hLaux, hLact, hTop, hBot⟩ := hInv
  obtain ⟨hb1, hd1, hs1⟩ : UF.Inv (s.uf_aux.find s.superTop).2 :=
    find_inv hIaux _
  refine ⟨hIuf, find_inv ⟨hb1, hd1, hs1⟩ _, hLuf, ?_, hLact, hTop, hBot⟩
  show ((s.uf_aux.find s.superTop).2.find s.superBottom).2.parent.length
      = s.numNodos + 2
  rw [find_parent_length, find_parent_length]
  exact hLaux

theorem hasPercB_congr {s t : Engine} (htop : t.superTop = s.superTop)
    (hbot : t.superBottom = s.superBottom)
    (hroots : ∀ y, t.uf_aux.root y = s.uf_aux.root y)
    (h : hasPercB s = true) : hasPercB t = true := by
  rw [hasPercB, decide_eq_true_eq] at h ⊢
  rw [htop, hbot, hroots, hroots]
  exact h

/-- Umbrella facts about one successful-or-rejected incremental step: the
invariant is preserved, the identification fields are unchanged, and
connectivity in both structures can only grow. -/
theorem step_facts (s : Engine) (aristas : List (ℕ × ℕ)) (configuracion : List ℚ)
    (p : ℚ) (Smax : ℤ) (hInv : EngineInv s) (hE : EdgesOk aristas s.numNodos) :
    EngineInv (generate_single_percolation s aristas configuracion p Smax).state ∧
    (generate_single_percolation s aristas configuracion p Smax).state.numNodos
      = s.numNodos ∧
    (generate_single_percolation s aristas configuracion p Smax).state.superTop
      = s.superTop ∧
    (generate_single_percolation s aristas configuracion p Smax).state.superBottom
      = s.superBottom ∧
    (generate_single_percolation s aristas configuracion p Smax).state.p_c
      = s.p_c ∧
    (∀ x y, s.uf.root x = s.uf.root y →
      (generate_single_percolation s aristas configuracion p Smax).state.uf.root x
        = (generate_single_percolation s aristas configuracion p Smax).state.uf.root y) ∧
    (∀ x y, s.uf_aux.root x = s.uf_aux.root y →
      (generate_single_percolation s aristas configuracion p Smax).state.uf_aux.root x
        = (generate_single_percolation s aristas configuracion p Smax).state.uf_aux.root y) := by
  obtain ⟨hIuf, hIaux, hLuf, hLaux, hLact, hTop, hBot⟩ := hInv
  by_cases hp : p < s.current_p
  · rw [generate_single_percolation, if_pos hp]
    exact ⟨⟨hIuf, hIaux, hLuf, hLaux, hLact, hTop, hBot⟩, rfl, rfl, rfl, rfl,
      fun x y h => h, fun x y h => h⟩
  · rw [step_eq s aristas configuracion p Smax hp]
    have hE1 : ∀ e ∈ aristas, e.1 < s.uf.parent.length ∧ e.2 < s.uf.parent.length := by
      intro e he
      rw [hLuf]
      exact hE e he
    have hn1 : s.uf.parent.length ≤ s.uf_aux.parent.length := by
      rw [hLuf, hLaux]
      omega
    obtain ⟨I1, I2, L1, L2, C1, C2, -, -, -⟩ :=
      foldEdges_facts (activar s.numNodos s.nodoActivo configuracion p) aristas
        (s.uf, s.uf_aux, Smax) hIuf hIaux hE1 hn1
    exact ⟨⟨I1, I2, L1.trans hLuf, L2.trans hLaux,
        (activar_length _ _ _ _).trans hLact, hTop, hBot⟩,
      rfl, rfl, rfl, rfl, C1, C2⟩

theorem loopBody_res (aristas : List (ℕ × ℕ)) (configuracion : List ℚ)
    (vis : Bool) (st : LoopSt) (p : ℚ) :
    (loopBody aristas configuracion vis st p).res
      = st.res ++ [(p,
          (generate_single_percolation st.s aristas configuracion p st.Smax).ncc,
          (generate_single_percolation st.s aristas configuracion p st.Smax).Smax,
          Rat.divInt
            (generate_single_percolation st.s aristas configuracion p st.Smax).Smax
            ((generate_single_percolation st.s aristas configuracion p st.Smax).state.numNodos : ℤ))] := by
  rw [loopBody]
  simp only []
  split
  · rfl
  · split <;> (try split) <;> rfl

theorem loopBody_Smax (aristas : List (ℕ × ℕ)) (configuracion : List ℚ)
    (vis : Bool) (st : LoopSt) (p : ℚ) :
    (loopBody aristas configuracion vis st p).Smax
      = (generate_single_percolation st.s aristas configuracion p st.Smax).Smax := by
  rw [loopBody]
  simp only []
  split
  · rfl
  · split <;> (try split) <;> rfl

/-- Umbrella facts about one sweep iteration. -/
theorem loopBody_facts (aristas : List (ℕ × ℕ)) (configuracion : List ℚ)
    (vis : Bool) (st : LoopSt) (p : ℚ) (hInv : EngineInv st.s)
    (hE : EdgesOk aristas st.s.numNodos) :
    EngineInv (loopBody aristas configuracion vis st p).s ∧
    (loopBody aristas configuracion vis st p).s.numNodos = st.s.numNodos ∧
    (loopBody aristas configuracion vis st p).s.superTop = st.s.superTop ∧
    (loopBody aristas configuracion vis st p).s.superBottom = st.s.superBottom ∧
    (∀ x y, st.s.uf_aux.root x = st.s.uf_aux.root y →
      (loopBody aristas configuracion vis st p).s.uf_aux.root x
        = (loopBody aristas configuracion vis st p).s.uf_aux.root y) ∧
    (st.percolation = true →
      (loopBody aristas configuracion vis st p).percolation = true ∧
      (loopBody aristas configuracion vis st p).s.p_c = st.s.p_c) ∧
    (st.percolation = false →
      (loopBody aristas configuracion vis st p).percolation = true →
      (loopBody aristas configuracion vis st p).s.p_c = p) := by
  obtain ⟨sInv, sN, sT, sB, sPc, sCuf, sCaux⟩ :=
    step_facts st.s aristas configuracion p st.Smax hInv hE
  set r := generate_single_percolation st.s aristas configuracion p st.Smax with hr
  obtain ⟨rIuf, rIaux, rLuf, rLaux, rLact, rTop, rBot⟩ := sInv
  set s2 := if vis then { r.state with uf := dumpRoots r.state.numNodos r.state.uf }
      else r.state with hs2
  have hs2Inv : EngineInv s2 := by
    rw [hs2]
    split
    · refine ⟨(dump_facts r.state.numNodos r.state.uf rIuf).1, rIaux, ?_, rLaux,
        rLact, rTop, rBot⟩
      show (dumpRoots r.state.numNodos r.state.uf).parent.length = r.state.numNodos
      rw [(dump_facts r.state.numNodos r.state.uf rIuf).2.1]
      exact rLuf
    · exact ⟨rIuf, rIaux, rLuf, rLaux, rLact, rTop, rBot⟩
  have hs2aux : s2.uf_aux = r.state.uf_aux := by
    rw [hs2]
    split <;> rfl
  have hs2N : s2.numNodos = r.state.numNodos := by
    rw [hs2]
    split <;> rfl
  have hs2T : s2.superTop = r.state.superTop := by
    rw [hs2]
    split <;> rfl
  have hs2B : s2.superBottom = r.state.superBottom := by
    rw [hs2]
    split <;> rfl
  have hs2Pc : s2.p_c = r.state.p_c := by
    rw [hs2]
    split <;> rfl
  obtain ⟨hpb, hpuf, hpN, hpCp, hpAct, hpT, hpB, hpPc, hpSz, hpRoots⟩ :=
    hasPerc_facts s2 hs2Inv.2.1
  have hbody : loopBody aristas configuracion vis st p
      = if st.percolation then ⟨s2, r.Smax, true, st.res ++ [(p, r.ncc, r.Smax,
          Rat.divInt r.Smax (r.state.numNodos : ℤ))]⟩
        else if (has_percolation s2).1 then
          ⟨{ (has_percolation s2).2 with p_c := p }, r.Smax, true,
            st.res ++ [(p, r.ncc, r.Smax, Rat.divInt r.Smax (r.state.numNodos : ℤ))]⟩
        else ⟨(has_percolation s2).2, r.Smax, false,
          st.res ++ [(p, r.ncc, r.Smax, Rat.divInt r.Smax (r.state.numNodos : ℤ))]⟩ := by
    rw [loopBody, ← hr, ← hs2]
  rw [hbody]
  by_cases hflag : st.percolation
  · rw [if_pos hflag]
    refine ⟨hs2Inv, hs2N.trans sN, hs2T.trans sT, hs2B.trans sB, ?_, ?_, ?_⟩
    · intro x y h
      show s2.uf_aux.root x = s2.uf_aux.root y
      rw [hs2aux]
      exact sCaux x y h
    · intro _
      exact ⟨rfl, hs2Pc.trans sPc⟩
    · intro hf
      rw [hf] at hflag
      exact (Bool.false_ne_true hflag).elim
  · rw [if_neg hflag]
    have hpInv : EngineInv (has_percolation s2).2 := hasPerc_inv hs2Inv
    by_cases hdet : (has_percolation s2).1
    · rw [if_pos hdet]
      refine ⟨?_, ?_, ?_, ?_, ?_, ?_, ?_⟩
      · obtain ⟨a1, a2, a3, a4, a5, a6, a7⟩ := hpInv
        exact ⟨a1, a2, a3, a4, a5, a6, a7⟩
      · exact hpN.trans (hs2N.trans sN)
      · exact hpT.trans (hs2T.trans sT)
      · exact hpB.trans (hs2B.trans sB)
      · intro x y h
        show (has_percolation s2).2.uf_aux.root x
          = (has_percolation s2).2.uf_aux.root y
        rw [hpRoots, hpRoots, hs2aux]
        exact sCaux x y h
      · intro hf
        rw [hf] at hflag
        exact (hflag rfl).elim
      · intro _ _
        rfl
    · rw [if_neg hdet]
      refine ⟨hpInv, hpN.trans (hs2N.trans sN), hpT.trans (hs2T.trans sT),
        hpB.trans (hs2B.trans sB), ?_, ?_, ?_⟩
      · intro x y h
        rw [show (⟨(has_percolation s2).2, r.Smax, false, st.res ++ [(p, r.ncc,
          r.Smax, Rat.divInt r.Smax (r.state.numNodos : ℤ))]⟩ : LoopSt).s
            = (has_percolation s2).2 from rfl]
        rw [hpRoots, hpRoots, hs2aux]
        exact sCaux x y h
      · intro hf
        rw [hf] at hflag
        exact (hflag rfl).elim
      · intro _ hf
        exact absurd hf (by simp)

theorem initialize_inv {s : Engine} (hInv : EngineInv s) :
    EngineInv (initialize_supernodes s) ∧
    (initialize_supernodes s).numNodos = s.numNodos := by
  obtain ⟨hIuf, hIaux, hLuf, hLaux, hLact, hTop, hBot⟩ := hInv
  have haux : (initialize_supernodes s).uf_aux
      = (List.range (isqrt s.numNodos)).foldl
          (fun u i => (u.unite s.numNodos i).unite (s.numNodos + 1)
            (s.numNodos - isqrt s.numNodos + i)) s.uf_aux := by
    rw [initialize_supernodes]
    simp only [hTop, hBot]
  have hside : isqrt s.numNodos ≤ s.numNodos := by
    rw [isqrt_eq_sqrt]
    exact Nat.sqrt_le_self s.numNodos
  obtain ⟨qInv, qlen, -, -⟩ :=
    initFold_facts s.numNodos (isqrt s.numNodos) hside (isqrt s.numNodos) le_rfl
      s.uf_aux hIaux hLaux
  refine ⟨⟨hIuf, ?_, hLuf, ?_, hLact, hTop, hBot⟩, rfl⟩
  · rw [haux]
    exact qInv
  · rw [haux]
    exact qlen

theorem sweepIters_inv (s : Engine) (aristas : List (ℕ × ℕ))
    (configuracion : List ℚ) (step : ℚ) (vis : Bool) (hInv : EngineInv s)
    (hE : EdgesOk aristas s.numNodos) :
    ∀ i, EngineInv (sweepIters s aristas configuracion step vis i).s ∧
      (sweepIters s aristas configuracion step vis i).s.numNodos = s.numNodos := by
  intro i
  induction i with
  | zero =>
    rw [sweepIters_zero]
    exact initialize_inv hInv
  | succ i ih =>
    obtain ⟨pInv, pN⟩ := ih
    rw [sweepIters_succ]
    have hE' : EdgesOk aristas (sweepIters s aristas configuracion step vis i).s.numNodos := by
      rw [pN]
      exact hE
    obtain ⟨q1, q2, -, -, -, -, -⟩ :=
      loopBody_facts aristas configuracion vis
        (sweepIters s aristas configuracion step vis i) (pOf step i) pInv hE'
    exact ⟨q1, q2.trans pN⟩

theorem sweepIters_conn (s : Engine) (aristas : List (ℕ × ℕ))
    (configuracion : List ℚ) (step : ℚ) (vis : Bool) (hInv : EngineInv s)
    (hE : EdgesOk aristas s.numNodos) :
    ∀ i j, i ≤ j → ∀ x y,
      (sweepIters s aristas configuracion step vis i).s.uf_aux.root x
        = (sweepIters s aristas configuracion step vis i).s.uf_aux.root y →
      (sweepIters s aristas configuracion step vis j).s.uf_aux.root x
        = (sweepIters s aristas configuracion step vis j).s.uf_aux.root y := by
  intro i j hij
  induction j, hij using Nat.le_induction with
  | base => exact fun x y h => h
  | succ j hij ih =>
    intro x y h
    obtain ⟨pInv, pN⟩ :=
      sweepIters_inv s aristas configuracion step vis hInv hE j
    have hE' : EdgesOk aristas (sweepIters s aristas configuracion step vis j).s.numNodos := by
      rw [pN]
      exact hE
    obtain ⟨-, -, -, -, q5, -, -⟩ :=
      loopBody_facts aristas configuracion vis
        (sweepIters s aristas configuracion step vis j) (pOf step j) pInv hE'
    rw [sweepIters_succ]
    exact q5 x y (ih x y h)

theorem sweepIters_flag (s : Engine) (aristas : List (ℕ × ℕ))
    (configuracion : List ℚ) (step : ℚ) (vis : Bool) (hInv : EngineInv s)
    (hE : EdgesOk aristas s.numNodos) :
    ∀ i j, i ≤ j →
      (sweepIters s aristas configuracion step vis i).percolation = true →
      (sweepIters s aristas configuracion step vis j).percolation = true ∧
      (sweepIters s aristas configuracion step vis j).s.p_c
        = (sweepIters s aristas configuracion step vis i).s.p_c := by
  intro i j hij
  induction j, hij using Nat.le_induction with
  | base => exact fun h => ⟨h, rfl⟩
  | succ j hij ih =>
    intro h
    obtain ⟨f1, f2⟩ := ih h
    obtain ⟨pInv, pN⟩ :=
      sweepIters_inv s aristas configuracion step vis hInv hE j
    have hE' : EdgesOk aristas (sweepIters s aristas configuracion step vis j).s.numNodos := by
      rw [pN]
      exact hE
    obtain ⟨-, -, -, -, -, q6, -⟩ :=
      loopBody_facts aristas configuracion vis
        (sweepIters s aristas configuracion step vis j) (pOf step j) pInv hE'
    obtain ⟨g1, g2⟩ := q6 f1
    rw [sweepIters_succ]
    exact ⟨g1, g2.trans f2⟩

/-- C3: during a full sweep (here from the freshly constructed engine),
once the percolation predicate is true at some iteration it stays true at
every later iteration; and when the loop's detection flag first flips, at
iteration `i`, the critical probability is set to that iteration's
threshold `i * step` and is never overwritten afterwards. -/
theorem claim_C3 (n : ℕ) (aristas : List (ℕ × ℕ)) (configuracion : List ℚ)
    (step : ℚ) (vis : Bool) (hE : EdgesOk aristas n) :
    (∀ i j, i ≤ j →
      hasPercB (sweepIters (SitePercolation n) aristas configuracion step vis i).s = true →
      hasPercB (sweepIters (SitePercolation n) aristas configuracion step vis j).s = true) ∧
    (∀ i, (sweepIters (SitePercolation n) aristas configuracion step vis i).percolation = false →
      (sweepIters (SitePercolation n) aristas configuracion step vis (i + 1)).percolation = true →
      (sweepIters (SitePercolation n) aristas configuracion step vis (i + 1)).s.p_c
        = (i : ℚ) * step ∧
      (∀ j, i + 1 ≤ j →
        (sweepIters (SitePercolation n) aristas configuracion step vis j).s.p_c
          = (sweepIters (SitePercolation n) aristas configuracion step vis (i + 1)).s.p_c)) := by
  have hInv := engineInv_init n
  have hE0 : EdgesOk aristas (SitePercolation n).numNodos := hE
  constructor
  · intro i j hij h
    obtain ⟨iInv, iN⟩ :=
      sweepIters_inv (SitePercolation n) aristas configuracion step vis hInv hE0 i
    obtain ⟨jInv, jN⟩ :=
      sweepIters_inv (SitePercolation n) aristas configuracion step vis hInv hE0 j
    have hroots : ∀ x y,
        (sweepIters (SitePercolation n) aristas configuracion step vis i).s.uf_aux.root x
          = (sweepIters (SitePercolation n) aristas configuracion step vis i).s.uf_aux.root y →
        (sweepIters (SitePercolation n) aristas configuracion step vis j).s.uf_aux.root x
          = (sweepIters (SitePercolation n) aristas configuracion step vis j).s.uf_aux.root y :=
      sweepIters_conn (SitePercolation n) aristas configuracion step vis hInv hE0 i j hij
    rw [hasPercB, decide_eq_true_eq] at h ⊢
    have htopi : (sweepIters (SitePercolation n) aristas configuracion step vis i).s.superTop
        = (sweepIters (SitePercolation n) aristas configuracion step vis i).s.numNodos :=
      iInv.2.2.2.2.2.1
    have hboti : (sweepIters (SitePercolation n) aristas configuracion step vis i).s.superBottom
        = (sweepIters (SitePercolation n) aristas configuracion step vis i).s.numNodos + 1 :=
      iInv.2.2.2.2.2.2
    have htopj : (sweepIters (SitePercolation n) aristas configuracion step vis j).s.superTop
        = (sweepIters (SitePercolation n) aristas configuracion step vis j).s.numNodos :=
      jInv.2.2.2.2.2.1
    have hbotj : (sweepIters (SitePercolation n) aristas configuracion step vis j).s.superBottom
        = (sweepIters (SitePercolation n) aristas configuracion step vis j).s.numNodos + 1 :=
      jInv.2.2.2.2.2.2
    rw [htopj, hbotj, jN]
    rw [htopi, hboti, iN] at h
    exact hroots n (n + 1) h
  · intro i hfalse htrue
    obtain ⟨pInv, pN⟩ :=
      sweepIters_inv (SitePercolation n) aristas configuracion step vis hInv hE0 i
    have hE' : EdgesOk aristas
        (sweepIters (SitePercolation n) aristas configuracion step vis i).s.numNodos := by
      rw [pN]
      exact hE
    obtain ⟨-, -, -, -, -, -, q7⟩ :=
      loopBody_facts aristas configuracion vis
        (sweepIters (SitePercolation n) aristas configuracion step vis i) (pOf step i)
        pInv hE'
    constructor
    · rw [sweepIters_succ] at htrue ⊢
      rw [q7 hfalse htrue]
      exact pOf_eq step i
    · intro j hj
      exact (sweepIters_flag (SitePercolation n) aristas configuracion step vis
        hInv hE0 (i + 1) j hj htrue).2

theorem claim_C3_witness :
    EdgesOk [(0, 1), (0, 2), (1, 3), (2, 3)] 4 ∧
    ((∀ i j, i ≤ j →
      hasPercB (sweepIters (SitePercolation 4) [(0, 1), (0, 2), (1, 3), (2, 3)]
        [mkRat 1 10, mkRat 9 10, mkRat 2 10, mkRat 8 10] (mkRat 1 10) false i).s = true →
      hasPercB (sweepIters (SitePercolation 4) [(0, 1), (0, 2), (1, 3), (2, 3)]
        [mkRat 1 10, mkRat 9 10, mkRat 2 10, mkRat 8 10] (mkRat 1 10) false j).s = true) ∧
    (∀ i, (sweepIters (SitePercolation 4) [(0, 1), (0, 2), (1, 3), (2, 3)]
        [mkRat 1 10, mkRat 9 10, mkRat 2 10, mkRat 8 10] (mkRat 1 10) false i).percolation = false →
      (sweepIters (SitePercolation 4) [(0, 1), (0, 2), (1, 3), (2, 3)]
        [mkRat 1 10, mkRat 9 10, mkRat 2 10, mkRat 8 10] (mkRat 1 10) false (i + 1)).percolation = true →
      (sweepIters (SitePercolation 4) [(0, 1), (0, 2), (1, 3), (2, 3)]
        [mkRat 1 10, mkRat 9 10, mkRat 2 10, mkRat 8 10] (mkRat 1 10) false (i + 1)).s.p_c
        = (i : ℚ) * mkRat 1 10 ∧
      (∀ j, i + 1 ≤ j →
        (sweepIters (SitePercolation 4) [(0, 1), (0, 2), (1, 3), (2, 3)]
          [mkRat 1 10, mkRat 9 10, mkRat 2 10, mkRat 8 10] (mkRat 1 10) false j).s.p_c
          = (sweepIters (SitePercolation 4) [(0, 1), (0, 2), (1, 3), (2, 3)]
            [mkRat 1 10, mkRat 9 10, mkRat 2 10, mkRat 8 10] (mkRat 1 10) false (i + 1)).s.p_c))) :=
  ⟨by decide,
    claim_C3 4 [(0, 1), (0, 2), (1, 3), (2, 3)]
      [mkRat 1 10, mkRat 9 10, mkRat 2 10, mkRat 8 10] (mkRat 1 10) false (by decide)⟩

/-- The record list grows by exactly one record per iteration, and record
`j` is the output of the one incremental-step call of iteration `j`. -/
theorem sweepIters_res (s : Engine) (aristas : List (ℕ × ℕ))
    (configuracion : List ℚ) (step : ℚ) (vis : Bool) :
    ∀ i, (sweepIters s aristas configuracion step vis i).res.length = i ∧
      ∀ j, j < i →
        (sweepIters s aristas configuracion step vis i).res.getD j (0, 0, 0, 0)
          = (pOf step j,
             (generate_single_percolation
               (sweepIters s aristas configuracion step vis j).s aristas
               configuracion (pOf step j)
               (sweepIters s aristas configuracion step vis j).Smax).ncc,
             (generate_single_percolation
               (sweepIters s aristas configuracion step vis j).s aristas
               configuracion (pOf step j)
               (sweepIters s aristas configuracion step vis j).Smax).Smax,
             Rat.divInt
               (generate_single_percolation
                 (sweepIters s aristas configuracion step vis j).s aristas
                 configuracion (pOf step j)
                 (sweepIters s aristas configuracion step vis j).Smax).Smax
               ((generate_single_percolation
                 (sweepIters s aristas configuracion step vis j).s aristas
                 configuracion (pOf step j)
                 (sweepIters s aristas configuracion step vis j).Smax).state.numNodos : ℤ)) := by
  intro i
  induction i with
  | zero => exact ⟨rfl, fun j hj => absurd hj (by omega)⟩
  | succ i ih =>
    obtain ⟨ihlen, ihget⟩ := ih
    have hres : (sweepIters s aristas configuracion step vis (i + 1)).res
        = (sweepIters s aristas configuracion step vis i).res
          ++ [(pOf step i,
              (generate_single_percolation
                (sweepIters s aristas configuracion step vis i).s aristas
                configuracion (pOf step i)
                (sweepIters s aristas configuracion step vis i).Smax).ncc,
              (generate_single_percolation
                (sweepIters s aristas configuracion step vis i).s aristas
                configuracion (pOf step i)
                (sweepIters s aristas configuracion step vis i).Smax).Smax,
              Rat.divInt
                (generate_single_percolation
                  (sweepIters s aristas configuracion step vis i).s aristas
                  configuracion (pOf step i)
                  (sweepIters s aristas configuracion step vis i).Smax).Smax
                ((generate_single_percolation
                  (sweepIters s aristas configuracion step vis i).s aristas
                  configuracion (pOf step i)
                  (sweepIters s aristas configuracion step vis i).Smax).state.numNodos : ℤ))] := by
      rw [sweepIters_succ]
      exact loopBody_res aristas configuracion vis _ (pOf step i)
    constructor
    · rw [hres, List.length_append, ihlen]
      rfl
    · intro j hj
      rcases Nat.lt_succ_iff_lt_or_eq.1 hj with hji | hji
      · rw [hres, List.getD_append _ _ _ _ (by rw [ihlen]; exact hji)]
        exact ihget j hji
      · subst hji
        rw [hres, List.getD_append_right _ _ _ _ (by rw [ihlen]), ihlen]
        simp

/-- C2: with `0 < step`, the full sweep produces exactly one record per
iteration — record `j` being the 4-tuple
`(p_j, componentCount, largestClusterSize, largestClusterSize / N)` output
by the single incremental-step call of iteration `j` — at the thresholds
`p_j = j * step`, which are exactly the grid points with
`j * step ≤ 1 + tol` (from 0.0 to 1.0 inclusive, with the loop's numerical
tolerance), in strictly increasing `p` order. -/
theorem claim_C2 (s : Engine) (aristas : List (ℕ × ℕ)) (configuracion : List ℚ)
    (step : ℚ) (vis : Bool) (hstep : 0 < step) :
    (generate_full_percolation s aristas configuracion step vis).2.length
      = sweepCount step ∧
    (∀ j, j < (generate_full_percolation s aristas configuracion step vis).2.length
        ↔ (j : ℚ) * step ≤ 1 + tol) ∧
    (∀ j, j < (generate_full_percolation s aristas configuracion step vis).2.length →
      ((generate_full_percolation s aristas configuracion step vis).2.getD j
          (0, 0, 0, 0)).1 = (j : ℚ) * step) ∧
    (∀ j k, j < k →
      k < (generate_full_percolation s aristas configuracion step vis).2.length →
      ((generate_full_percolation s aristas configuracion step vis).2.getD j
          (0, 0, 0, 0)).1
        < ((generate_full_percolation s aristas configuracion step vis).2.getD k
          (0, 0, 0, 0)).1) ∧
    (∀ j, j < (generate_full_percolation s aristas configuracion step vis).2.length →
      (generate_full_percolation s aristas configuracion step vis).2.getD j
          (0, 0, 0, 0)
        = ((j : ℚ) * step,
           (generate_single_percolation
             (sweepIters s aristas configuracion step vis j).s aristas
             configuracion ((j : ℚ) * step)
             (sweepIters s aristas configuracion step vis j).Smax).ncc,
           (generate_single_percolation
             (sweepIters s aristas configuracion step vis j).s aristas
             configuracion ((j : ℚ) * step)
             (sweepIters s aristas configuracion step vis j).Smax).Smax,
           Rat.divInt
             (generate_single_percolation
               (sweepIters s aristas configuracion step vis j).s aristas
               configuracion ((j : ℚ) * step)
               (sweepIters s aristas configuracion step vis j).Smax).Smax
             ((generate_single_percolation
               (sweepIters s aristas configuracion step vis j).s aristas
               configuracion ((j : ℚ) * step)
               (sweepIters s aristas configuracion step vis j).Smax).state.numNodos : ℤ))) := by
  obtain ⟨hlen, hget⟩ :=
    sweepIters_res s aristas configuracion step vis (sweepCount step)
  have hres : (generate_full_percolation s aristas configuracion step vis).2
      = (sweepIters s aristas configuracion step vis (sweepCount step)).res := rfl
  rw [hres, hlen]
  refine ⟨rfl, fun j => lt_sweepCount_iff step hstep j, ?_, ?_, ?_⟩
  · intro j hj
    rw [hget j hj]
    exact pOf_eq step j
  · intro j k hjk hk
    rw [hget j (by omega), hget k hk]
    show pOf step j < pOf step k
    rw [pOf_eq, pOf_eq]
    have : (j : ℚ) < (k : ℚ) := by
      exact_mod_cast hjk
    exact mul_lt_mul_of_pos_right this hstep
  · intro j hj
    rw [hget j hj, ← pOf_eq step j]

theorem claim_C2_witness :
    (0 : ℚ) < mkRat 1 2 ∧
    ((generate_full_percolation (SitePercolation 2) [(0, 1)] [0, mkRat 3 4]
        (mkRat 1 2) false).2.length = sweepCount (mkRat 1 2) ∧
     (∀ j, j < (generate_full_percolation (SitePercolation 2) [(0, 1)] [0, mkRat 3 4]
          (mkRat 1 2) false).2.length ↔ (j : ℚ) * mkRat 1 2 ≤ 1 + tol) ∧
     (∀ j, j < (generate_full_percolation (SitePercolation 2) [(0, 1)] [0, mkRat 3 4]
          (mkRat 1 2) false).2.length →
        ((generate_full_percolation (SitePercolation 2) [(0, 1)] [0, mkRat 3 4]
          (mkRat 1 2) false).2.getD j (0, 0, 0, 0)).1 = (j : ℚ) * mkRat 1 2) ∧
     (∀ j k, j < k →
        k < (generate_full_percolation (SitePercolation 2) [(0, 1)] [0, mkRat 3 4]
          (mkRat 1 2) false).2.length →
        ((generate_full_percolation (SitePercolation 2) [(0, 1)] [0, mkRat 3 4]
          (mkRat 1 2) false).2.getD j (0, 0, 0, 0)).1
          < ((generate_full_percolation (SitePercolation 2) [(0, 1)] [0, mkRat 3 4]
            (mkRat 1 2) false).2.getD k (0, 0, 0, 0)).1) ∧
     (∀ j, j < (generate_full_percolation (SitePercolation 2) [(0, 1)] [0, mkRat 3 4]
          (mkRat 1 2) false).2.length →
        (generate_full_percolation (SitePercolation 2) [(0, 1)] [0, mkRat 3 4]
          (mkRat 1 2) false).2.getD j (0, 0, 0, 0)
          = ((j : ℚ) * mkRat 1 2,
             (generate_single_percolation
               (sweepIters (SitePercolation 2) [(0, 1)] [0, mkRat 3 4] (mkRat 1 2) false j).s
               [(0, 1)] [0, mkRat 3 4] ((j : ℚ) * mkRat 1 2)
               (sweepIters (SitePercolation 2) [(0, 1)] [0, mkRat 3 4] (mkRat 1 2) false j).Smax).ncc,
             (generate_single_percolation
               (sweepIters (SitePercolation 2) [(0, 1)] [0, mkRat 3 4] (mkRat 1 2) false j).s
               [(0, 1)] [0, mkRat 3 4] ((j : ℚ) * mkRat 1 2)
               (sweepIters (SitePercolation 2) [(0, 1)] [0, mkRat 3 4] (mkRat 1 2) false j).Smax).Smax,
             Rat.divInt
               (generate_single_percolation
                 (sweepIters (SitePercolation 2) [(0, 1)] [0, mkRat 3 4] (mkRat 1 2) false j).s
                 [(0, 1)] [0, mkRat 3 4] ((j : ℚ) * mkRat 1 2)
                 (sweepIters (SitePercolation 2) [(0, 1)] [0, mkRat 3 4] (mkRat 1 2) false j).Smax).Smax
               ((generate_single_percolation
                 (sweepIters (SitePercolation 2) [(0, 1)] [0, mkRat 3 4] (mkRat 1 2) false j).s
                 [(0, 1)] [0, mkRat 3 4] ((j : ℚ) * mkRat 1 2)
                 (sweepIters (SitePercolation 2) [(0, 1)] [0, mkRat 3 4] (mkRat 1 2) false j).Smax).state.numNodos : ℤ)))) :=
  ⟨by decide,
    claim_C2 (SitePercolation 2) [(0, 1)] [0, mkRat 3 4] (mkRat 1 2) false (by decide)⟩

set_option maxRecDepth 4000 in
/-- C9: the 4-node lattice scenario with edges
`[(0,1),(0,2),(1,3),(2,3)]`, weights `[0.1, 0.9, 0.2, 0.8]` and
`step = 0.1`: after the `p = 0.1` iteration only node 0 is active and the
record is `(0.1, 4, 1, 1/4)`; after the `p = 0.2` iteration nodes 0 and 2
are active and united, the record is `(0.2, 3, 2, 1/2)`; after the
`p = 0.9` iteration all nodes are active and fully connected with record
`(0.9, 1, 4, 1)`; and `p_c = 0.2 = 2 * step`, the exact sweep step at which
a top-row node (0 or 1) and a bottom-row node (2 or 3) first share a
component. -/
theorem claim_C9 :
    (generate_full_percolation (SitePercolation 4) [(0, 1), (0, 2), (1, 3), (2, 3)]
        [mkRat 1 10, mkRat 9 10, mkRat 2 10, mkRat 8 10] (mkRat 1 10) false).2.getD 1
        (0, 0, 0, 0) = (mkRat 1 10, 4, 1, mkRat 1 4) ∧
    (sweepIters (SitePercolation 4) [(0, 1), (0, 2), (1, 3), (2, 3)]
        [mkRat 1 10, mkRat 9 10, mkRat 2 10, mkRat 8 10] (mkRat 1 10) false 2).s.nodoActivo
      = [true, false, false, false] ∧
    (generate_full_percolation (SitePercolation 4) [(0, 1), (0, 2), (1, 3), (2, 3)]
        [mkRat 1 10, mkRat 9 10, mkRat 2 10, mkRat 8 10] (mkRat 1 10) false).2.getD 2
        (0, 0, 0, 0) = (mkRat 1 5, 3, 2, mkRat 1 2) ∧
    (sweepIters (SitePercolation 4) [(0, 1), (0, 2), (1, 3), (2, 3)]
        [mkRat 1 10, mkRat 9 10, mkRat 2 10, mkRat 8 10] (mkRat 1 10) false 3).s.nodoActivo
      = [true, false, true, false] ∧
    (sweepIters (SitePercolation 4) [(0, 1), (0, 2), (1, 3), (2, 3)]
        [mkRat 1 10, mkRat 9 10, mkRat 2 10, mkRat 8 10] (mkRat 1 10) false 3).s.uf.root 0
      = (sweepIters (SitePercolation 4) [(0, 1), (0, 2), (1, 3), (2, 3)]
        [mkRat 1 10, mkRat 9 10, mkRat 2 10, mkRat 8 10] (mkRat 1 10) false 3).s.uf.root 2 ∧
    (generate_full_percolation (SitePercolation 4) [(0, 1), (0, 2), (1, 3), (2, 3)]
        [mkRat 1 10, mkRat 9 10, mkRat 2 10, mkRat 8 10] (mkRat 1 10) false).2.getD 9
        (0, 0, 0, 0) = (mkRat 9 10, 1, 4, 1) ∧
    (sweepIters (SitePercolation 4) [(0, 1), (0, 2), (1, 3), (2, 3)]
        [mkRat 1 10, mkRat 9 10, mkRat 2 10, mkRat 8 10] (mkRat 1 10) false 10).s.nodoActivo
      = [true, true, true, true] ∧
    (∀ y, y < 4 →
      (sweepIters (SitePercolation 4) [(0, 1), (0, 2), (1, 3), (2, 3)]
        [mkRat 1 10, mkRat 9 10, mkRat 2 10, mkRat 8 10] (mkRat 1 10) false 10).s.uf.root y
        = (sweepIters (SitePercolation 4) [(0, 1), (0, 2), (1, 3), (2, 3)]
          [mkRat 1 10, mkRat 9 10, mkRat 2 10, mkRat 8 10] (mkRat 1 10) false 10).s.uf.root 0) ∧
    (generate_full_percolation (SitePercolation 4) [(0, 1), (0, 2), (1, 3), (2, 3)]
        [mkRat 1 10, mkRat 9 10, mkRat 2 10, mkRat 8 10] (mkRat 1 10) false).1.p_c
      = mkRat 1 5 ∧
    mkRat 1 5 = pOf (mkRat 1 10) 2 ∧
    (∀ i, i ≤ 2 → ∀ a, a < 2 → ∀ b, 2 ≤ b → b < 4 →
      (sweepIters (SitePercolation 4) [(0, 1), (0, 2), (1, 3), (2, 3)]
        [mkRat 1 10, mkRat 9 10, mkRat 2 10, mkRat 8 10] (mkRat 1 10) false i).s.uf.root a
        ≠ (sweepIters (SitePercolation 4) [(0, 1), (0, 2), (1, 3), (2, 3)]
          [mkRat 1 10, mkRat 9 10, mkRat 2 10, mkRat 8 10] (mkRat 1 10) false i).s.uf.root b) := by
  decide

/-! ### The visualization sink never influences the computation -/

theorem UFsim_refl (u : UF) : UFsim u u := ⟨rfl, rfl, fun _ => rfl⟩

theorem UFsim_trans {u v w : UF} (h1 : UFsim u v) (h2 : UFsim v w) :
    UFsim u w :=
  ⟨h1.1.trans h2.1, h1.2.1.trans h2.2.1, fun y => (h1.2.2 y).trans (h2.2.2 y)⟩

theorem EngSim_refl (a : Engine) : EngSim a a :=
  ⟨UFsim_refl a.uf, rfl, rfl, rfl, rfl, rfl, rfl, rfl⟩

theorem get_size_sim {u v : UF} (h : UFsim u v) (y : ℕ) :
    u.get_size y = v.get_size y := by
  rw [UF.get_size, UF.get_size, h.2.1, h.2.2 y]

theorem unite_sim {u v : UF} (hu : UF.Inv u) (hv : UF.Inv v) (h : UFsim u v)
    {a b : ℕ} (ha : a < u.parent.length) (hb : b < u.parent.length) :
    UFsim (u.unite a b) (v.unite a b) := by
  obtain ⟨hlen, hsz, hroot⟩ := h
  have ha' : a < v.parent.length := by rw [← hlen]; exact ha
  have hb' : b < v.parent.length := by rw [← hlen]; exact hb
  have hW : u.uniteW a b = v.uniteW a b := by
    rw [UF.uniteW, UF.uniteW, hsz, hroot a, hroot b]
  have hL : u.uniteL a b = v.uniteL a b := by
    rw [UF.uniteL, UF.uniteL, hsz, hroot a, hroot b]
  refine ⟨?_, ?_, ?_⟩
  · rw [unite_length hu ha hb, unite_length hv ha' hb', hlen]
  · rw [unite_sz_eq hu ha hb, unite_sz_eq hv ha' hb', hsz, hroot a, hroot b, hW]
  · intro y
    rw [unite_root_eq hu ha hb y, unite_root_eq hv ha' hb' y, hroot a, hroot b,
      hroot y, hW, hL]

theorem foldEdges_sim (act : List Bool) :
    ∀ (aristas : List (ℕ × ℕ)) (stx sty : UF × UF × ℤ),
      UF.Inv stx.1 → UF.Inv sty.1 → UF.Inv stx.2.1 →
      UFsim stx.1 sty.1 → stx.2.1 = sty.2.1 → stx.2.2 = sty.2.2 →
      (∀ e ∈ aristas, e.1 < stx.1.parent.length ∧ e.2 < stx.1.parent.length) →
      stx.1.parent.length ≤ stx.2.1.parent.length →
      UFsim (aristas.foldl (procEdge act) stx).1
        (aristas.foldl (procEdge act) sty).1 ∧
      (aristas.foldl (procEdge act) stx).2.1
        = (aristas.foldl (procEdge act) sty).2.1 ∧
      (aristas.foldl (procEdge act) stx).2.2
        = (aristas.foldl (procEdge act) sty).2.2 := by
  intro aristas
  induction aristas with
  | nil =>
    intro stx sty _ _ _ hsim haux hS _ _
    exact ⟨hsim, haux, hS⟩
  | cons f rest ih =>
    intro stx sty hIx hIy hIaux hsim haux hS hE hn
    have hf := hE f (List.mem_cons_self f rest)
    have hf1' : f.1 < sty.1.parent.length := by rw [← hsim.1]; exact hf.1
    have hf2' : f.2 < sty.1.parent.length := by rw [← hsim.1]; exact hf.2
    have hfa1 : f.1 < stx.2.1.parent.length := lt_of_lt_of_le hf.1 hn
    have hfa2 : f.2 < stx.2.1.parent.length := lt_of_lt_of_le hf.2 hn
    rw [List.foldl_cons, List.foldl_cons]
    by_cases hact : act.getD f.1 false = true ∧ act.getD f.2 false = true
    · have hx : procEdge act stx f
          = (stx.1.unite f.1 f.2, stx.2.1.unite f.1 f.2,
            max stx.2.2 (max ((stx.1.unite f.1 f.2).get_size f.1 : ℤ)
              ((stx.1.unite f.1 f.2).get_size f.2 : ℤ))) := by
        rw [procEdge_eq, if_pos hact]
      have hy : procEdge act sty f
          = (sty.1.unite f.1 f.2, sty.2.1.unite f.1 f.2,
            max sty.2.2 (max ((sty.1.unite f.1 f.2).get_size f.1 : ℤ)
              ((sty.1.unite f.1 f.2).get_size f.2 : ℤ))) := by
        rw [procEdge_eq, if_pos hact]
      have husim : UFsim (stx.1.unite f.1 f.2) (sty.1.unite f.1 f.2) :=
        unite_sim hIx hIy hsim hf.1 hf.2
      have hSmax' : max stx.2.2 (max ((stx.1.unite f.1 f.2).get_size f.1 : ℤ)
            ((stx.1.unite f.1 f.2).get_size f.2 : ℤ))
          = max sty.2.2 (max ((sty.1.unite f.1 f.2).get_size f.1 : ℤ)
            ((sty.1.unite f.1 f.2).get_size f.2 : ℤ)) := by
        rw [hS, get_size_sim husim, get_size_sim husim]
      refine ih (procEdge act stx f) (procEdge act sty f) ?_ ?_ ?_ ?_ ?_ ?_ ?_ ?_
      · rw [hx]
        exact unite_inv hIx hf.1 hf.2
      · rw [hy]
        exact unite_inv hIy hf1' hf2'
      · rw [hx]
        exact unite_inv hIaux hfa1 hfa2
      · rw [hx, hy]
        exact husim
      · rw [hx, hy]
        show stx.2.1.unite f.1 f.2 = sty.2.1.unite f.1 f.2
        rw [haux]
      · rw [hx, hy]
        exact hSmax'
      · intro e he
        rw [hx]
        show e.1 < (stx.1.unite f.1 f.2).parent.length
          ∧ e.2 < (stx.1.unite f.1 f.2).parent.length
        rw [unite_length hIx hf.1 hf.2]
        exact hE e (List.mem_cons_of_mem f he)
      · rw [hx]
        show (stx.1.unite f.1 f.2).parent.length
          ≤ (stx.2.1.unite f.1 f.2).parent.length
        rw [unite_length hIx hf.1 hf.2, unite_length hIaux hfa1 hfa2]
        exact hn
    · rw [procEdge_eq, procEdge_eq, if_neg hact, if_neg hact]
      exact ih stx sty hIx hIy hIaux hsim haux hS
        (fun e he => hE e (List.mem_cons_of_mem f he)) hn

theorem step_sim {a b : Engine} (aristas : List (ℕ × ℕ))
    (configuracion : List ℚ) (p : ℚ) (Smax : ℤ) (hsim : EngSim a b)
    (hIa : EngineInv a) (hIb : EngineInv b) (hE : EdgesOk aristas a.numNodos) :
    EngSim (generate_single_percolation a aristas configuracion p Smax).state
      (generate_single_percolation b aristas configuracion p Smax).state ∧
    (generate_single_percolation a aristas configuracion p Smax).Smax
      = (generate_single_percolation b aristas configuracion p Smax).Smax ∧
    (generate_single_percolation a aristas configuracion p Smax).ncc
      = (generate_single_percolation b aristas configuracion p Smax).ncc ∧
    (generate_single_percolation a aristas configuracion p Smax).err
      = (generate_single_percolation b aristas configuracion p Smax).err := by
  obtain ⟨hu, haux, hN, hcp, hact, htop, hbot, hpc⟩ := hsim
  obtain ⟨aIuf, aIaux, aLuf, aLaux, aLact, aTop, aBot⟩ := hIa
  obtain ⟨bIuf, bIaux, bLuf, bLaux, bLact, bTop, bBot⟩ := hIb
  by_cases hp : p < a.current_p
  · have hp' : p < b.current_p := by rw [← hcp]; exact hp
    rw [generate_single_percolation, generate_single_percolation, if_pos hp,
      if_pos hp']
    refine ⟨⟨hu, haux, hN, hcp, hact, htop, hbot, hpc⟩, rfl, ?_, rfl⟩
    show a.uf.Ncc a.numNodos = b.uf.Ncc b.numNodos
    rw [hN]
    exact Ncc_congr hu.2.2 b.numNodos
  · have hp' : ¬ p < b.current_p := by rw [← hcp]; exact hp
    rw [step_eq a aristas configuracion p Smax hp,
      step_eq b aristas configuracion p Smax hp']
    have hactEq : activar a.numNodos a.nodoActivo configuracion p
        = activar b.numNodos b.nodoActivo configuracion p := by
      rw [hN, hact]
    have hE1 : ∀ e ∈ aristas, e.1 < a.uf.parent.length ∧ e.2 < a.uf.parent.length := by
      intro e he
      rw [aLuf]
      exact hE e he
    have hn1 : a.uf.parent.length ≤ a.uf_aux.parent.length := by
      rw [aLuf, aLaux]
      omega
    obtain ⟨q1, q2, q3⟩ :=
      foldEdges_sim (activar a.numNodos a.nodoActivo configuracion p) aristas
        (a.uf, a.uf_aux, Smax) (b.uf, b.uf_aux, Smax) aIuf bIuf aIaux
        hu haux rfl hE1 hn1
    rw [← hactEq]
    refine ⟨⟨q1, q2, hN, rfl, rfl, htop, hbot, hpc⟩, q3, ?_, rfl⟩
    show (aristas.foldl (procEdge (activar a.numNodos a.nodoActivo configuracion p))
        (a.uf, a.uf_aux, Smax)).1.Ncc a.numNodos
      = (aristas.foldl (procEdge (activar a.numNodos a.nodoActivo configuracion p))
        (b.uf, b.uf_aux, Smax)).1.Ncc b.numNodos
    nth_rewrite 2 [hN]
    exact Ncc_congr q1.2.2 b.numNodos

theorem hasPerc_sim {a b : Engine} (h : EngSim a b) :
    (has_percolation a).1 = (has_percolation b).1 ∧
    EngSim (has_percolation a).2 (has_percolation b).2 := by
  obtain ⟨hu, haux, hN, hcp, hact, htop, hbot, hpc⟩ := h
  constructor
  · show decide ((a.uf_aux.find a.superTop).1
        = ((a.uf_aux.find a.superTop).2.find a.superBottom).1)
      = decide ((b.uf_aux.find b.superTop).1
        = ((b.uf_aux.find b.superTop).2.find b.superBottom).1)
    rw [haux, htop, hbot]
  · refine ⟨hu, ?_, hN, hcp, hact, htop, hbot, hpc⟩
    show ((a.uf_aux.find a.superTop).2.find a.superBottom).2
      = ((b.uf_aux.find b.superTop).2.find b.superBottom).2
    rw [haux, htop, hbot]

theorem loopBody_sim (aristas : List (ℕ × ℕ)) (configuracion : List ℚ)
    (p : ℚ) {x y : LoopSt} (hsim : LoopSim x y) (hIx : EngineInv x.s)
    (hIy : EngineInv y.s) (hE : EdgesOk aristas x.s.numNodos) :
    LoopSim (loopBody aristas configuracion true x p)
      (loopBody aristas configuracion false y p) := by
  obtain ⟨hES, hSm, hPc, hRes⟩ := hsim
  obtain ⟨r1, r2, r3, r4⟩ :=
    step_sim aristas configuracion p x.Smax hES hIx hIy hE
  obtain ⟨sInvx, -, -, -, -, -, -⟩ :=
    step_facts x.s aristas configuracion p x.Smax hIx hE
  obtain ⟨e1, e2, e3, e4, e5, e6, e7, e8⟩ := r1
  have hdump := dump_facts
    (generate_single_percolation x.s aristas configuracion p x.Smax).state.numNodos
    (generate_single_percolation x.s aristas configuracion p x.Smax).state.uf
    sInvx.1
  have hsimDump : EngSim
      { (generate_single_percolation x.s aristas configuracion p x.Smax).state with
          uf := dumpRoots
            (generate_single_percolation x.s aristas configuracion p x.Smax).state.numNodos
            (generate_single_percolation x.s aristas configuracion p x.Smax).state.uf }
      (generate_single_percolation y.s aristas configuracion p x.Smax).state :=
    ⟨UFsim_trans ⟨hdump.2.1, hdump.2.2.1, hdump.2.2.2⟩ e1, e2, e3, e4, e5, e6,
      e7, e8⟩
  obtain ⟨hp1, hp2⟩ := hasPerc_sim hsimDump
  have hrec : (p,
      (generate_single_percolation x.s aristas configuracion p x.Smax).ncc,
      (generate_single_percolation x.s aristas configuracion p x.Smax).Smax,
      Rat.divInt (generate_single_percolation x.s aristas configuracion p x.Smax).Smax
        ((generate_single_percolation x.s aristas configuracion p x.Smax).state.numNodos : ℤ))
      = (p,
      (generate_single_percolation y.s aristas configuracion p x.Smax).ncc,
      (generate_single_percolation y.s aristas configuracion p x.Smax).Smax,
      Rat.divInt (generate_single_percolation y.s aristas configuracion p x.Smax).Smax
        ((generate_single_percolation y.s aristas configuracion p x.Smax).state.numNodos : ℤ)) := by
    rw [r3, r2, e3]
  show LoopSim
    (if x.percolation = true then
      (⟨{ (generate_single_percolation x.s aristas configuracion p x.Smax).state with
            uf := dumpRoots
              (generate_single_percolation x.s aristas configuracion p x.Smax).state.numNodos
              (generate_single_percolation x.s aristas configuracion p x.Smax).state.uf },
          (generate_single_percolation x.s aristas configuracion p x.Smax).Smax, true,
          x.res ++ [(p,
            (generate_single_percolation x.s aristas configuracion p x.Smax).ncc,
            (generate_single_percolation x.s aristas configuracion p x.Smax).Smax,
            Rat.divInt (generate_single_percolation x.s aristas configuracion p x.Smax).Smax
              ((generate_single_percolation x.s aristas configuracion p x.Smax).state.numNodos : ℤ))]⟩ : LoopSt)
     else if (has_percolation
          { (generate_single_percolation x.s aristas configuracion p x.Smax).state with
              uf := dumpRoots
                (generate_single_percolation x.s aristas configuracion p x.Smax).state.numNodos
                (generate_single_percolation x.s aristas configuracion p x.Smax).state.uf }).1
          = true then
       ⟨{ (has_percolation
            { (generate_single_percolation x.s aristas configuracion p x.Smax).state with
                uf := dumpRoots
                  (generate_single_percolation x.s aristas configuracion p x.Smax).state.numNodos
                  (generate_single_percolation x.s aristas configuracion p x.Smax).state.uf }).2
            with p_c := p },
         (generate_single_percolation x.s aristas configuracion p x.Smax).Smax, true,
         x.res ++ [(p,
           (generate_single_percolation x.s aristas configuracion p x.Smax).ncc,
           (generate_single_percolation x.s aristas configuracion p x.Smax).Smax,
           Rat.divInt (generate_single_percolation x.s aristas configuracion p x.Smax).Smax
             ((generate_single_percolation x.s aristas configuracion p x.Smax).state.numNodos : ℤ))]⟩
     else
       ⟨(has_percolation
          { (generate_single_percolation x.s aristas configuracion p x.Smax).state with
              uf := dumpRoots
                (generate_single_percolation x.s aristas configuracion p x.Smax).state.numNodos
                (generate_single_percolation x.s aristas configuracion p x.Smax).state.uf }).2,
         (generate_single_percolation x.s aristas configuracion p x.Smax).Smax, false,
         x.res ++ [(p,
           (generate_single_percolation x.s aristas configuracion p x.Smax).ncc,
           (generate_single_percolation x.s aristas configuracion p x.Smax).Smax,
           Rat.divInt (generate_single_percolation x.s aristas configuracion p x.Smax).Smax
             ((generate_single_percolation x.s aristas configuracion p x.Smax).state.numNodos : ℤ))]⟩)
    (if y.percolation = true then
      (⟨(generate_single_percolation y.s aristas configuracion p y.Smax).state,
          (generate_single_percolation y.s aristas configuracion p y.Smax).Smax, true,
          y.res ++ [(p,
            (generate_single_percolation y.s aristas configuracion p y.Smax).ncc,
            (generate_single_percolation y.s aristas configuracion p y.Smax).Smax,
            Rat.divInt (generate_single_percolation y.s aristas configuracion p y.Smax).Smax
              ((generate_single_percolation y.s aristas configuracion p y.Smax).state.numNodos : ℤ))]⟩ : LoopSt)
     else if (has_percolation
          (generate_single_percolation y.s aristas configuracion p y.Smax).state).1
          = true then
       ⟨{ (has_percolation
            (generate_single_percolation y.s aristas configuracion p y.Smax).state).2
            with p_c := p },
         (generate_single_percolation y.s aristas configuracion p y.Smax).Smax, true,
         y.res ++ [(p,
           (generate_single_percolation y.s aristas configuracion p y.Smax).ncc,
           (generate_single_percolation y.s aristas configuracion p y.Smax).Smax,
           Rat.divInt (generate_single_percolation y.s aristas configuracion p y.Smax).Smax
             ((generate_single_percolation y.s aristas configuracion p y.Smax).state.numNodos : ℤ))]⟩
     else
       ⟨(has_percolation
          (generate_single_percolation y.s aristas configuracion p y.Smax).state).2,
         (generate_single_percolation y.s aristas configuracion p y.Smax).Smax, false,
         y.res ++ [(p,
           (generate_single_percolation y.s aristas configuracion p y.Smax).ncc,
           (generate_single_percolation y.s aristas configuracion p y.Smax).Smax,
           Rat.divInt (generate_single_percolation y.s aristas configuracion p y.Smax).Smax
             ((generate_single_percolation y.s aristas configuracion p y.Smax).state.numNodos : ℤ))]⟩)
  rw [← hSm, ← hPc, ← hRes]
  by_cases hflag : x.percolation = true
  · rw [if_pos hflag, if_pos hflag]
    exact ⟨hsimDump, r2, rfl, by rw [hrec]⟩
  · rw [if_neg hflag, if_neg hflag, hp1]
    by_cases hdet : (has_percolation
        (generate_single_percolation y.s aristas configuracion p x.Smax).state).1
        = true
    · rw [if_pos hdet, if_pos hdet]
      refine ⟨?_, r2, rfl, by rw [hrec]⟩
      obtain ⟨g1, g2, g3, g4, g5, g6, g7, g8⟩ := hp2
      exact ⟨g1, g2, g3, g4, g5, g6, g7, rfl⟩
    · rw [if_neg hdet, if_neg hdet]
      exact ⟨hp2, r2, rfl, by rw [hrec]⟩

theorem sweep_sim (s : Engine) (aristas : List (ℕ × ℕ)) (configuracion : List ℚ)
    (step : ℚ) (hInv : EngineInv s) (hE : EdgesOk aristas s.numNodos) :
    ∀ i, LoopSim (sweepIters s aristas configuracion step true i)
      (sweepIters s aristas configuracion step false i) := by
  intro i
  induction i with
  | zero =>
    rw [sweepIters_zero, sweepIters_zero]
    exact ⟨EngSim_refl _, rfl, rfl, rfl⟩
  | succ i ih =>
    rw [sweepIters_succ, sweepIters_succ]
    obtain ⟨xInv, xN⟩ := sweepIters_inv s aristas configuracion step true hInv hE i
    obtain ⟨yInv, -⟩ := sweepIters_inv s aristas configuracion step false hInv hE i
    have hE' : EdgesOk aristas
        (sweepIters s aristas configuracion step true i).s.numNodos := by
      rw [xN]
      exact hE
    exact loopBody_sim aristas configuracion (pOf step i) ih xInv yInv hE'

/-- C8 counterexample: the claimed conjunction "identical result sequences
and identical engine state" fails. With visualization enabled, the per-node
root dump's `uf.find(i)` calls compress paths in the primary structure, so
the two final engines differ in their parent vectors (here, after uniting
0-1, 2-3 and 1-2 in one iteration, node 3's parent is rewritten from 2 to
the root 0 only in the visualization run). -/
theorem claim_C8_counterexample :
    ¬ ((generate_full_percolation (SitePercolation 4) [(0, 1), (2, 3), (1, 2)]
          [0, 0, 0, 0] 2 true).2
        = (generate_full_percolation (SitePercolation 4) [(0, 1), (2, 3), (1, 2)]
          [0, 0, 0, 0] 2 false).2 ∧
      (generate_full_percolation (SitePercolation 4) [(0, 1), (2, 3), (1, 2)]
          [0, 0, 0, 0] 2 true).1
        = (generate_full_percolation (SitePercolation 4) [(0, 1), (2, 3), (1, 2)]
          [0, 0, 0, 0] 2 false).1) := by
  decide

/-- C8 (corrected): the visualization sink never influences the computation,
but "leaves the engine state identical" is too strong. For every fresh
engine, edge list with in-range endpoints, weight vector and step, the run
with the sink enabled returns exactly the same record sequence as the run
without it, and the two final engines agree observably: equal auxiliary
structure, node count, current_p, activation vector, terminals and p_c, and
primary structures of the same length with the same size vector and the same
representative for every node — only the primary parent-pointer layout may
differ, because the dump's find calls compress paths. -/
theorem claim_C8 (n : ℕ) (aristas : List (ℕ × ℕ)) (configuracion : List ℚ)
    (step : ℚ) (hE : EdgesOk aristas n) :
    (generate_full_percolation (SitePercolation n) aristas configuracion step true).2
      = (generate_full_percolation (SitePercolation n) aristas configuracion step false).2 ∧
    EngSim (generate_full_percolation (SitePercolation n) aristas configuracion step true).1
      (generate_full_percolation (SitePercolation n) aristas configuracion step false).1 := by
  have hE' : EdgesOk aristas (SitePercolation n).numNodos := hE
  obtain ⟨hES, -, -, hRes⟩ :=
    sweep_sim (SitePercolation n) aristas configuracion step (engineInv_init n)
      hE' (sweepCount step)
  exact ⟨hRes, hES⟩

/-- Witness for C8 at a concrete scenario. -/
theorem claim_C8_witness :
    EdgesOk [(0, 1), (2, 3), (1, 2)] 4 ∧
    ((generate_full_percolation (SitePercolation 4) [(0, 1), (2, 3), (1, 2)]
        [0, 0, 0, 0] 2 true).2
      = (generate_full_percolation (SitePercolation 4) [(0, 1), (2, 3), (1, 2)]
        [0, 0, 0, 0] 2 false).2 ∧
    EngSim (generate_full_percolation (SitePercolation 4) [(0, 1), (2, 3), (1, 2)]
        [0, 0, 0, 0] 2 true).1
      (generate_full_percolation (SitePercolation 4) [(0, 1), (2, 3), (1, 2)]
        [0, 0, 0, 0] 2 false).1) :=
  ⟨by decide, claim_C8 4 [(0, 1), (2, 3), (1, 2)] [0, 0, 0, 0] 2 (by decide)⟩

end SitePerc
